import Mathlib

/-!
# AdMore key store

A model of `app/src/main/cpp/key_store.cpp`: the cipher engine (`encryptKey`,
`decryptKey`) and the secret store (`storeKey`, `getKey`, `deleteKey`,
`hasKey`).

* Strings and buffers are lists of octets.
* The OpenSSL calls are modelled for the one cipher the code uses,
  `EVP_aes_256_cbc()` with the default padding: AES-256 as in FIPS-197, CBC
  chaining, and the buffering of `EVP_EncryptUpdate`, `EVP_EncryptFinal_ex`,
  `EVP_DecryptUpdate` and `EVP_DecryptFinal_ex`.
* Lengths that the code stores in an `int` go through `toInt`.
* A thrown exception is an `Except.error`; a `catch (const std::exception&)`
  is a match on it.
* The file system is the base directory and the key file in it, passed from
  call to call. What the library and the operating system decide on their own
  (allocation of a context, the random IV, `mkdir`, a short write, `chmod`,
  `remove`) is an argument of the call.
-/

namespace AdMore

/-- An octet, as held in a `std::string` or an `unsigned char` buffer. -/
abbrev Byte := Fin 256

/-- Reduce a natural number to an octet. -/
def byte (n : Nat) : Byte := ⟨n % 256, Nat.mod_lt n (by decide)⟩

/-- Bytewise exclusive-or of two buffers, up to the shorter one. -/
def xorBytes : List Byte → List Byte → List Byte
  | a :: as, b :: bs => (a ^^^ b) :: xorBytes as bs
  | _, _ => []

/-! ## AES-256 (FIPS-197), the block cipher behind `EVP_aes_256_cbc()` -/

def SBOX : List Nat :=
  [ 99, 124, 119, 123, 242, 107, 111, 197,  48,   1, 103,  43, 254, 215, 171, 118,
   202, 130, 201, 125, 250,  89,  71, 240, 173, 212, 162, 175, 156, 164, 114, 192,
   183, 253, 147,  38,  54,  63, 247, 204,  52, 165, 229, 241, 113, 216,  49,  21,
     4, 199,  35, 195,  24, 150,   5, 154,   7,  18, 128, 226, 235,  39, 178, 117,
     9, 131,  44,  26,  27, 110,  90, 160,  82,  59, 214, 179,  41, 227,  47, 132,
    83, 209,   0, 237,  32, 252, 177,  91, 106, 203, 190,  57,  74,  76,  88, 207,
   208, 239, 170, 251,  67,  77,  51, 133,  69, 249,   2, 127,  80,  60, 159, 168,
    81, 163,  64, 143, 146, 157,  56, 245, 188, 182, 218,  33,  16, 255, 243, 210,
   205,  12,  19, 236,  95, 151,  68,  23, 196, 167, 126,  61, 100,  93,  25, 115,
    96, 129,  79, 220,  34,  42, 144, 136,  70, 238, 184,  20, 222,  94,  11, 219,
   224,  50,  58,  10,  73,   6,  36,  92, 194, 211, 172,  98, 145, 149, 228, 121,
   231, 200,  55, 109, 141, 213,  78, 169, 108,  86, 244, 234, 101, 122, 174,   8,
   186, 120,  37,  46,  28, 166, 180, 198, 232, 221, 116,  31,  75, 189, 139, 138,
   112,  62, 181, 102,  72,   3, 246,  14,  97,  53,  87, 185, 134, 193,  29, 158,
   225, 248, 152,  17, 105, 217, 142, 148, 155,  30, 135, 233, 206,  85,  40, 223,
   140, 161, 137,  13, 191, 230,  66, 104,  65, 153,  45,  15, 176,  84, 187,  22]

def INV_SBOX : List Nat :=
  [ 82,   9, 106, 213,  48,  54, 165,  56, 191,  64, 163, 158, 129, 243, 215, 251,
   124, 227,  57, 130, 155,  47, 255, 135,  52, 142,  67,  68, 196, 222, 233, 203,
    84, 123, 148,  50, 166, 194,  35,  61, 238,  76, 149,  11,  66, 250, 195,  78,
     8,  46, 161, 102,  40, 217,  36, 178, 118,  91, 162,  73, 109, 139, 209,  37,
   114, 248, 246, 100, 134, 104, 152,  22, 212, 164,  92, 204,  93, 101, 182, 146,
   108, 112,  72,  80, 253, 237, 185, 218,  94,  21,  70,  87, 167, 141, 157, 132,
   144, 216, 171,   0, 140, 188, 211,  10, 247, 228,  88,   5, 184, 179,  69,   6,
   208,  44,  30, 143, 202,  63,  15,   2, 193, 175, 189,   3,   1,  19, 138, 107,
    58, 145,  17,  65,  79, 103, 220, 234, 151, 242, 207, 206, 240, 180, 230, 115,
   150, 172, 116,  34, 231, 173,  53, 133, 226, 249,  55, 232,  28, 117, 223, 110,
    71, 241,  26, 113,  29,  41, 197, 137, 111, 183,  98,  14, 170,  24, 190,  27,
   252,  86,  62,  75, 198, 210, 121,  32, 154, 219, 192, 254, 120, 205,  90, 244,
    31, 221, 168,  51, 136,   7, 199,  49, 177,  18,  16,  89,  39, 128, 236,  95,
    96,  81, 127, 169,  25, 181,  74,  13,  45, 229, 122, 159, 147, 201, 156, 239,
   160, 224,  59,  77, 174,  42, 245, 176, 200, 235, 187,  60, 131,  83, 153,  97,
    23,  43,   4, 126, 186, 119, 214,  38, 225, 105,  20,  99,  85,  33,  12, 125]

def sbox (b : Byte) : Byte := byte (SBOX.getD b.val 0)

def invSbox (b : Byte) : Byte := byte (INV_SBOX.getD b.val 0)

/-- Multiplication by `x` in GF(2^8) modulo `x^8 + x^4 + x^3 + x + 1`, on the
numeric value of an octet: `(n << 1) ^ ((n >> 7) * 0x1b)` cut to eight bits. -/
def xtimeN (n : Nat) : Nat := ((n <<< 1) ^^^ ((n >>> 7) * 27)) % 256

def xtime (b : Byte) : Byte := byte (xtimeN b.val)

def mul2 (b : Byte) : Byte := xtime b
def mul3 (b : Byte) : Byte := xtime b ^^^ b
def mul9 (b : Byte) : Byte := xtime (xtime (xtime b)) ^^^ b
def mul11 (b : Byte) : Byte := xtime (xtime (xtime b)) ^^^ xtime b ^^^ b
def mul13 (b : Byte) : Byte := xtime (xtime (xtime b)) ^^^ xtime (xtime b) ^^^ b
def mul14 (b : Byte) : Byte := xtime (xtime (xtime b)) ^^^ xtime (xtime b) ^^^ xtime b

def subBytes (s : List Byte) : List Byte := s.map sbox

def invSubBytes (s : List Byte) : List Byte := s.map invSbox

/-- The state is held column by column: byte `r + 4 * c` is row `r`, column `c`. -/
def shiftRows : List Byte → List Byte
  | [a0, a1, a2, a3, b0, b1, b2, b3, c0, c1, c2, c3, d0, d1, d2, d3] =>
    [a0, b1, c2, d3, b0, c1, d2, a3, c0, d1, a2, b3, d0, a1, b2, c3]
  | s => s

def invShiftRows : List Byte → List Byte
  | [a0, a1, a2, a3, b0, b1, b2, b3, c0, c1, c2, c3, d0, d1, d2, d3] =>
    [a0, d1, c2, b3, b0, a1, d2, c3, c0, b1, a2, d3, d0, c1, b2, a3]
  | s => s

def mixColumn : List Byte → List Byte
  | [a, b, c, d] =>
    [mul2 a ^^^ mul3 b ^^^ c ^^^ d, a ^^^ mul2 b ^^^ mul3 c ^^^ d,
     a ^^^ b ^^^ mul2 c ^^^ mul3 d, mul3 a ^^^ b ^^^ c ^^^ mul2 d]
  | s => s

def invMixColumn : List Byte → List Byte
  | [a, b, c, d] =>
    [mul14 a ^^^ mul11 b ^^^ mul13 c ^^^ mul9 d, mul9 a ^^^ mul14 b ^^^ mul11 c ^^^ mul13 d,
     mul13 a ^^^ mul9 b ^^^ mul14 c ^^^ mul11 d, mul11 a ^^^ mul13 b ^^^ mul9 c ^^^ mul14 d]
  | s => s

def mixColumns : List Byte → List Byte
  | [a0, a1, a2, a3, b0, b1, b2, b3, c0, c1, c2, c3, d0, d1, d2, d3] =>
    mixColumn [a0, a1, a2, a3] ++ mixColumn [b0, b1, b2, b3] ++
      mixColumn [c0, c1, c2, c3] ++ mixColumn [d0, d1, d2, d3]
  | s => s

def invMixColumns : List Byte → List Byte
  | [a0, a1, a2, a3, b0, b1, b2, b3, c0, c1, c2, c3, d0, d1, d2, d3] =>
    invMixColumn [a0, a1, a2, a3] ++ invMixColumn [b0, b1, b2, b3] ++
      invMixColumn [c0, c1, c2, c3] ++ invMixColumn [d0, d1, d2, d3]
  | s => s

/-- Round key `r`: bytes `16 * r .. 16 * r + 15` of the expanded key. -/
def roundKey (w : List Byte) (r : Nat) : List Byte :=
  (List.range 16).map fun i => w.getD (16 * r + i) 0

def addRoundKey (s rk : List Byte) : List Byte := xorBytes s rk

def subWord (w : List Byte) : List Byte := w.map sbox

def rotWord : List Byte → List Byte
  | [a, b, c, d] => [b, c, d, a]
  | w => w

/-- Round constant `Rcon[j]`, `x^(j-1)` in GF(2^8). -/
def rcon : Nat → Byte
  | 0 => 0
  | 1 => 1
  | j + 1 => xtime (rcon j)

/-- Word `i` (four bytes) of the key schedule built so far. -/
def keyWord (w : List Byte) (i : Nat) : List Byte := (w.drop (4 * i)).take 4

/-- One step of the AES-256 key schedule (`Nk = 8`): append word `i`. -/
def expandStep (w : List Byte) (i : Nat) : List Byte :=
  let temp := keyWord w (i - 1)
  let temp :=
    if i % 8 = 0 then xorBytes (subWord (rotWord temp)) [rcon (i / 8), 0, 0, 0]
    else if i % 8 = 4 then subWord temp
    else temp
  w ++ xorBytes (keyWord w (i - 8)) temp

/-- The AES-256 key schedule: 60 words from the 32-byte key. -/
def keyExpansion (key : List Byte) : List Byte :=
  (List.range' 8 52).foldl expandStep key

def encRound (w : List Byte) (s : List Byte) (r : Nat) : List Byte :=
  addRoundKey (mixColumns (shiftRows (subBytes s))) (roundKey w r)

def decRound (w : List Byte) (s : List Byte) (r : Nat) : List Byte :=
  invMixColumns (addRoundKey (invSubBytes (invShiftRows s)) (roundKey w r))

/-- The cipher of FIPS-197 with `Nr = 14`, on one 16-byte block. -/
def aesEncryptBlock (key block : List Byte) : List Byte :=
  let w := keyExpansion key
  let s := addRoundKey block (roundKey w 0)
  let s := (List.range' 1 13).foldl (encRound w) s
  addRoundKey (shiftRows (subBytes s)) (roundKey w 14)

/-- The inverse cipher of FIPS-197 with `Nr = 14`, on one 16-byte block. -/
def aesDecryptBlock (key block : List Byte) : List Byte :=
  let w := keyExpansion key
  let s := addRoundKey block (roundKey w 14)
  let s := (List.range' 1 13).reverse.foldl (decRound w) s
  addRoundKey (invSubBytes (invShiftRows s)) (roundKey w 0)


/-- Bounded universal check, evaluated by the kernel. -/
def allBelow (p : Nat → Bool) : Nat → Bool
  | 0 => true
  | n + 1 => p n && allBelow p n

/-- The test `xtimeN (a ^^^ b) = xtimeN a ^^^ xtimeN b`, written with the
primitive operations on numbers. -/
def xtimeLinearAt (a b : Nat) : Bool :=
  Nat.beq
    (Nat.mod (Nat.xor (Nat.shiftLeft (Nat.xor a b) 1)
      (Nat.mul (Nat.shiftRight (Nat.xor a b) 7) 27)) 256)
    (Nat.xor
      (Nat.mod (Nat.xor (Nat.shiftLeft a 1) (Nat.mul (Nat.shiftRight a 7) 27)) 256)
      (Nat.mod (Nat.xor (Nat.shiftLeft b 1) (Nat.mul (Nat.shiftRight b 7) 27)) 256))

/-! ## C++ values: strings, `int`, exceptions -/

/-- The bytes of an ASCII string literal, as a `std::string` holds them. -/
def str (s : String) : List Byte := s.toList.map fun c => byte c.toNat

/-- Value of a `std::size_t` after its conversion to `int` (32 bits, two's
complement). The result is the same for a 32-bit and for a 64-bit `size_t`. -/
def toInt (n : Nat) : Int :=
  if n % 2 ^ 32 < 2 ^ 31 then ((n % 2 ^ 32 : Nat) : Int)
  else ((n % 2 ^ 32 : Nat) : Int) - 2 ^ 32

/-- The exceptions the code can raise: `std::runtime_error` with its message, and
what `new unsigned char[len]` throws on a negative `len`
(`std::bad_array_new_length`, a `std::bad_alloc`). Each derives from
`std::exception`, which is what the `catch` clauses catch. -/
inductive Exn where
  | runtime_error (what : String)
  | bad_alloc
  deriving DecidableEq, Repr

/-! ## The EVP interface, for `EVP_aes_256_cbc()` with padding enabled -/

/-- The constant of `<openssl/evp.h>`. -/
def EVP_MAX_BLOCK_LENGTH : Nat := 32

/-- What `EVP_CIPHER_CTX` holds between calls: the key read at initialisation,
the CBC chaining value, the partial input block, and for decryption the last
plaintext block, held back until the final call. -/
structure EVP_CIPHER_CTX where
  key : List Byte
  iv : List Byte
  buf : List Byte
  final : List Byte
  final_used : Bool

/-- The outcome of `EVP_EncryptInit_ex` / `EVP_DecryptInit_ex` with
`EVP_aes_256_cbc()`: `key_len = 32` bytes are read at the key pointer and 16 at
the IV pointer. -/
def EVP_CipherInit_ex (key iv : List Byte) : EVP_CIPHER_CTX :=
  { key := key.take 32, iv := iv.take 16, buf := [], final := [], final_used := false }

/-- CBC encryption of `n` whole blocks of `inp` from chaining value `iv`: the
ciphertext and the next chaining value. -/
def cbcEncrypt (key : List Byte) : Nat → List Byte → List Byte → List Byte × List Byte
  | 0, iv, _ => ([], iv)
  | n + 1, iv, inp =>
    let c := aesEncryptBlock key (xorBytes (inp.take 16) iv)
    let r := cbcEncrypt key n c (inp.drop 16)
    (c ++ r.1, r.2)

/-- CBC decryption of `n` whole blocks of `inp` from chaining value `iv`: the
plaintext and the next chaining value. -/
def cbcDecrypt (key : List Byte) : Nat → List Byte → List Byte → List Byte × List Byte
  | 0, iv, _ => ([], iv)
  | n + 1, iv, inp =>
    let c := inp.take 16
    let p := xorBytes (aesDecryptBlock key c) iv
    let r := cbcDecrypt key n c (inp.drop 16)
    (p ++ r.1, r.2)

/-- `EVP_EncryptUpdate(ctx, out, &outl, in, inl)`: `none` when it returns 0,
else the bytes written to `out` and the context afterwards. A non-positive
`inl` writes nothing and succeeds only for `inl = 0`. -/
def EVP_EncryptUpdate (ctx : EVP_CIPHER_CTX) (inp : List Byte) (inl : Int) :
    Option (List Byte × EVP_CIPHER_CTX) :=
  if inl ≤ 0 then
    if inl = 0 then some ([], ctx) else none
  else
    let data := ctx.buf ++ inp.take inl.toNat
    let n := data.length / 16
    let r := cbcEncrypt ctx.key n ctx.iv data
    some (r.1, { ctx with iv := r.2, buf := data.drop (16 * n) })

/-- `EVP_EncryptFinal_ex(ctx, out, &outl)`: the partial block is filled with
`n = 16 - buf_len` bytes of value `n` and encrypted. -/
def EVP_EncryptFinal_ex (ctx : EVP_CIPHER_CTX) : Option (List Byte × EVP_CIPHER_CTX) :=
  let n := 16 - ctx.buf.length
  let c := aesEncryptBlock ctx.key (xorBytes (ctx.buf ++ List.replicate n (byte n)) ctx.iv)
  some (c, { ctx with iv := c, buf := [] })

/-- `EVP_DecryptUpdate(ctx, out, &outl, in, inl)`: whole blocks are decrypted;
when the input ends on a block boundary the last decrypted block is held back
in `final` and not written. -/
def EVP_DecryptUpdate (ctx : EVP_CIPHER_CTX) (inp : List Byte) (inl : Int) :
    Option (List Byte × EVP_CIPHER_CTX) :=
  if inl ≤ 0 then
    if inl = 0 then some ([], ctx) else none
  else
    let held := if ctx.final_used then ctx.final else []
    let data := ctx.buf ++ inp.take inl.toNat
    let n := data.length / 16
    let r := cbcDecrypt ctx.key n ctx.iv data
    let rest := data.drop (16 * n)
    if rest.length = 0 then
      some (held ++ r.1.take (16 * n - 16),
        { ctx with iv := r.2, buf := rest, final := r.1.drop (16 * n - 16), final_used := true })
    else
      some (held ++ r.1, { ctx with iv := r.2, buf := rest, final_used := false })

/-- The padding check of `EVP_DecryptFinal_ex` on the held-back block: its last
byte `n` is in `1 .. 16` and its last `n` bytes all equal `n`. -/
def paddingOk (final : List Byte) : Bool :=
  let n := (final.getD 15 0).val
  !(n == 0 || decide (16 < n)) && (final.drop (16 - n)).all fun b => b.val == n

/-- `EVP_DecryptFinal_ex(ctx, out, &outl)`: fails on a partial block, on no
held-back block, and on malformed padding; else writes the held-back block
without its padding. -/
def EVP_DecryptFinal_ex (ctx : EVP_CIPHER_CTX) : Option (List Byte × EVP_CIPHER_CTX) :=
  if ctx.buf.length != 0 || !ctx.final_used then none
  else if paddingOk ctx.final then
    some (ctx.final.take (16 - (ctx.final.getD 15 0).val), ctx)
  else none

/-! ## The cipher engine of `key_store.cpp` -/

def KEY_FILE_NAME : String := "admore_key.dat"

/-- The bytes of the C string `KeyStore::KEY_ENCRYPTION_KEY`. -/
def KEY_ENCRYPTION_KEY : List Byte := str "your_hardcoded_encryption_key_here"

/-- A 16-byte initialisation vector, as `RAND_bytes(iv, sizeof(iv))` fills it. -/
abbrev IV := { iv : List Byte // iv.length = 16 }

/-- What the library calls of one `encryptKey` / `decryptKey` run answer:
whether `EVP_CIPHER_CTX_new` returns a context, the bytes `RAND_bytes` writes
(or its failure), whether `EVP_EncryptInit_ex` / `EVP_DecryptInit_ex` returns 1. -/
structure CryptoEnv where
  ctx_new : Bool
  rand : Option IV
  init : Bool

/-- The size `encryptKey` allocates for `outbuf`:
`int len = key.length() + EVP_MAX_BLOCK_LENGTH`. -/
def outbufLen (key : List Byte) : Int := toInt (key.length + EVP_MAX_BLOCK_LENGTH)

/-- `KeyStore::encryptKey`: a fresh IV from `RAND_bytes`, AES-256-CBC through
the EVP calls into `outbuf`, and the result `IV || outbuf[0 .. outlen)`. Every
failure is a thrown exception. The lengths handed to `new[]` and to
`EVP_EncryptUpdate` are `int`s. -/
def encryptKey (env : CryptoEnv) (key : List Byte) : Except Exn (List Byte) :=
  if !env.ctx_new then .error (.runtime_error "Failed to create cipher context")
  else match env.rand with
    | none => .error (.runtime_error "Failed to generate IV")
    | some iv =>
      if !env.init then .error (.runtime_error "Failed to initialize encryption")
      else
        let ctx := EVP_CipherInit_ex KEY_ENCRYPTION_KEY iv.val
        -- new unsigned char[len] with a negative len throws
        if outbufLen key < 0 then .error .bad_alloc
        else match EVP_EncryptUpdate ctx key (toInt key.length) with
          | none => .error (.runtime_error "Failed to encrypt data")
          | some (out1, ctx1) =>
            match EVP_EncryptFinal_ex ctx1 with
            | none => .error (.runtime_error "Failed to finalize encryption")
            | some (out2, _) => .ok (iv.val ++ (out1 ++ out2))

/-- `KeyStore::decryptKey`: the first 16 bytes are the IV, the rest goes through
`EVP_DecryptUpdate` and `EVP_DecryptFinal_ex`. Every failure is a thrown
exception. -/
def decryptKey (env : CryptoEnv) (encryptedKey : List Byte) : Except Exn (List Byte) :=
  if encryptedKey.length < 16 then .error (.runtime_error "Invalid encrypted data")
  else
    let iv := encryptedKey.take 16
    if !env.ctx_new then .error (.runtime_error "Failed to create cipher context")
    else if !env.init then .error (.runtime_error "Failed to initialize decryption")
    else
      let ctx := EVP_CipherInit_ex KEY_ENCRYPTION_KEY iv
      let len := toInt (encryptedKey.length - 16)
      -- new unsigned char[len] with a negative len throws
      if len < 0 then .error .bad_alloc
      else match EVP_DecryptUpdate ctx (encryptedKey.drop 16) len with
        | none => .error (.runtime_error "Failed to decrypt data")
        | some (out1, ctx1) =>
          match EVP_DecryptFinal_ex ctx1 with
          | none => .error (.runtime_error "Failed to finalize decryption")
          | some (out2, _) => .ok (out1 ++ out2)

/-! ## The file system under `/data/data/com.seamlabs.admore/files` -/

/-- The key file `admore_key.dat`: its bytes and its permission bits. -/
structure KeyFile where
  content : List Byte
  mode : Nat
  deriving DecidableEq, Repr

/-- The part of the file system the store touches: the base directory is
missing, or it is there and holds the key file or not. -/
inductive FileSys where
  | noDir
  | dir (file : Option KeyFile)
  deriving DecidableEq, Repr

/-- What the operating system decides during one call of the store: whether
`mkdir` can create the base directory when it is missing, the mode `open`
gives a new file (`0666 & ~umask`), how much of the buffer the write stores
(`none`: all of it; `some m`: the first `m` bytes only, as on a full disk),
whether `chmod` succeeds, and whether `remove` can unlink the file when it is
there (it cannot, for one, when the base directory is not writable). -/
structure Os where
  mkdir_ok : Bool
  create_mode : Nat
  write_limit : Option Nat
  chmod_ok : Bool
  remove_ok : Bool

/-- Owner read permission, `S_IRUSR = 0400`. -/
def ownerReadable (mode : Nat) : Bool := mode / 256 % 2 == 1

/-- Owner write permission, `S_IWUSR = 0200`. -/
def ownerWritable (mode : Nat) : Bool := mode / 128 % 2 == 1

/-- `mkdir(dir, 0700)`: 0 when the directory is created, -1 when it exists
already or cannot be created. -/
def mkdir (os : Os) : FileSys → Int × FileSys
  | .noDir => if os.mkdir_ok then (0, .dir none) else (-1, .noDir)
  | fs => (-1, fs)

/-- `std::ofstream file(filePath, std::ios::binary)`: the file is created or
truncated; `none` when `is_open()` is false. -/
def ofstream_open (os : Os) : FileSys → Option FileSys
  | .noDir => none
  | .dir none => some (.dir (some { content := [], mode := os.create_mode }))
  | .dir (some f) =>
    if ownerWritable f.mode then some (.dir (some { f with content := [] })) else none

/-- `file << data; file.close()`. -/
def ofstream_write (os : Os) (data : List Byte) : FileSys → FileSys
  | .dir (some f) =>
    .dir (some { f with content := f.content ++
      (match os.write_limit with
       | none => data
       | some m => data.take m) })
  | fs => fs

/-- `chmod(filePath, mode)`. -/
def chmod (os : Os) (mode : Nat) : FileSys → Int × FileSys
  | .dir (some f) =>
    if os.chmod_ok then (0, .dir (some { f with mode := mode })) else (-1, .dir (some f))
  | fs => (-1, fs)

/-- `std::ifstream file(filePath)` then reading `file.rdbuf()`: the content,
or `none` when the file is missing or not readable. -/
def ifstream_open : FileSys → Option (List Byte)
  | .dir (some f) => if ownerReadable f.mode then some f.content else none
  | _ => none

/-- `remove(filePath)`: 0 when the file was there and is removed; -1, with
nothing changed, when the file is missing or cannot be removed. -/
def remove (os : Os) : FileSys → Int × FileSys
  | .dir (some f) => if os.remove_ok then (0, .dir none) else (-1, .dir (some f))
  | fs => (-1, fs)

/-! ## The secret store of `key_store.cpp` -/

/-- `KeyStore::getKeyFilePath`: the one path all four operations work on. -/
def getKeyFilePath : String := "/data/data/com.seamlabs.admore/files" ++ "/" ++ KEY_FILE_NAME

/-- `KeyStore::storeKey`: seal, `mkdir` (result ignored), open the file for
writing (false when that fails), write, `chmod` (result ignored), true. An
exception from `encryptKey` is caught and gives false before any file call. -/
def storeKey (env : CryptoEnv) (os : Os) (key : List Byte) (fs : FileSys) : Bool × FileSys :=
  match encryptKey env key with
  | .error _ => (false, fs)
  | .ok encryptedKey =>
    let fs1 := (mkdir os fs).2
    match ofstream_open os fs1 with
    | none => (false, fs1)
    | some fs2 =>
      let fs3 := ofstream_write os encryptedKey fs2
      let fs4 := (chmod os 0o600 fs3).2
      (true, fs4)

/-- `KeyStore::getKey`: the empty string when the file cannot be opened or
`decryptKey` throws, else the decrypted content. -/
def getKey (env : CryptoEnv) (fs : FileSys) : List Byte × FileSys :=
  match ifstream_open fs with
  | none => ([], fs)
  | some encryptedKey =>
    match decryptKey env encryptedKey with
    | .error _ => ([], fs)
    | .ok key => (key, fs)

/-- `KeyStore::deleteKey`: `remove(filePath) == 0`. -/
def deleteKey (os : Os) (fs : FileSys) : Bool × FileSys :=
  let r := remove os fs
  (r.1 == 0, r.2)

/-- `KeyStore::hasKey`: `file.good()` right after opening the file for reading. -/
def hasKey (fs : FileSys) : Bool × FileSys :=
  ((ifstream_open fs).isSome, fs)

/-! ## Auxiliary definitions used to state the results -/

/-- The AES-256 key in use: the 32 bytes `EVP_*Init_ex` reads at `KEY_ENCRYPTION_KEY`. -/
def aesKey : List Byte := KEY_ENCRYPTION_KEY.take 32

/-- A partial block with its PKCS#7 padding. -/
def pkcs7 (b : List Byte) : List Byte :=
  b ++ List.replicate (16 - b.length) (byte (16 - b.length))

/-- The ciphertext of `q` from chaining value `iv`: the whole blocks in CBC
mode, then the padded last block. -/
def sealBody (iv q : List Byte) : List Byte :=
  let r := cbcEncrypt aesKey (q.length / 16) iv q
  r.1 ++ aesEncryptBlock aesKey (xorBytes (pkcs7 (q.drop (16 * (q.length / 16)))) r.2)

/-- A run in which every library call succeeds and `RAND_bytes` answers `rand`. -/
def libOk (rand : Option IV) : CryptoEnv := { ctx_new := true, rand := rand, init := true }

/-- The all-zero initialisation vector. -/
def ivZero : IV := ⟨List.replicate 16 0, by simp⟩

/-- The all-one initialisation vector. -/
def ivOne : IV := ⟨List.replicate 16 1, by simp⟩

/-- An operating system on which no call fails (`umask 022`). -/
def osOk : Os :=
  { mkdir_ok := true, create_mode := 0o644, write_limit := none, chmod_ok := true,
    remove_ok := true }

/-- An operating system with a full disk: the file is created, and none of the
bytes written reach it. -/
def osDiskFull : Os :=
  { mkdir_ok := true, create_mode := 0o644, write_limit := some 0, chmod_ok := true,
    remove_ok := true }

/-- An operating system on which the write stores the first 20 bytes only and
`chmod` fails. -/
def osFaulty : Os :=
  { mkdir_ok := true, create_mode := 0o644, write_limit := some 20, chmod_ok := false,
    remove_ok := true }

/-- An operating system on which `remove` fails on the key file, as when the
base directory has lost its write permission. -/
def osRemoveFails : Os :=
  { mkdir_ok := true, create_mode := 0o644, write_limit := none, chmod_ok := true,
    remove_ok := false }

/-- The block `EVP_DecryptUpdate` holds back for the padding check when
`decryptKey` runs on `encryptedKey`: the last decrypted block. -/
def heldBlock (encryptedKey : List Byte) : List Byte :=
  match EVP_DecryptUpdate (EVP_CipherInit_ex KEY_ENCRYPTION_KEY (encryptedKey.take 16))
      (encryptedKey.drop 16) (toInt (encryptedKey.length - 16)) with
  | some (_, ctx) => ctx.final
  | none => []

/-! ## Octet arithmetic -/

theorem xor_val (a b : Byte) : (a ^^^ b).val = a.val ^^^ b.val := by
  show (a.val ^^^ b.val) % 256 = _
  exact Nat.mod_eq_of_lt (Nat.xor_lt_two_pow (n := 8) a.isLt b.isLt)

theorem bxor_comm (a b : Byte) : a ^^^ b = b ^^^ a := by
  apply Fin.ext; rw [xor_val, xor_val, Nat.xor_comm]

theorem bxor_assoc (a b c : Byte) : a ^^^ b ^^^ c = a ^^^ (b ^^^ c) := by
  apply Fin.ext; simp only [xor_val, Nat.xor_assoc]

theorem bxor_self (a : Byte) : a ^^^ a = 0 := by
  apply Fin.ext; rw [xor_val, Nat.xor_self]; rfl

theorem bxor_zero (a : Byte) : a ^^^ 0 = a := by
  apply Fin.ext; rw [xor_val]; simp

theorem zero_bxor (a : Byte) : 0 ^^^ a = a := by
  rw [bxor_comm, bxor_zero]

theorem bxor_left_comm (a b c : Byte) : a ^^^ (b ^^^ c) = b ^^^ (a ^^^ c) := by
  rw [← bxor_assoc, bxor_comm a b, bxor_assoc]

theorem bxor_cancel_left (a b : Byte) : a ^^^ (a ^^^ b) = b := by
  rw [← bxor_assoc, bxor_self, zero_bxor]

theorem bxor_cancel_right (a b : Byte) : a ^^^ b ^^^ b = a := by
  rw [bxor_assoc, bxor_self, bxor_zero]

theorem allBelow_spec (p : Nat → Bool) : ∀ n, allBelow p n = true → ∀ i, i < n → p i = true
  | 0, _, i, hi => absurd hi (Nat.not_lt_zero i)
  | n + 1, h, i, hi => by
    simp only [allBelow, Bool.and_eq_true] at h
    rcases Nat.lt_succ_iff_lt_or_eq.mp hi with h1 | h1
    · exact allBelow_spec p n h.2 i h1
    · rw [h1]; exact h.1

/-! ## AES: every step of the cipher is undone by the inverse cipher -/

theorem sbox_check :
    allBelow (fun n => (INV_SBOX.getD (SBOX.getD n 0 % 256) 0) % 256 == n) 256 = true := by
  decide!

theorem invSbox_sbox (b : Byte) : invSbox (sbox b) = b := by
  have h := allBelow_spec _ 256 sbox_check b.val b.isLt
  apply Fin.ext
  simpa [invSbox, sbox, byte] using h

set_option maxRecDepth 1000000 in
theorem xtimeN_check :
    allBelow (fun a => allBelow (fun b => xtimeLinearAt a b) 256) 256 = true := by
  decide!

theorem xtimeLinearAt_spec {a b : Nat} (h : xtimeLinearAt a b = true) :
    xtimeN (a ^^^ b) = xtimeN a ^^^ xtimeN b :=
  Nat.eq_of_beq_eq_true h

theorem xtimeN_lt (n : Nat) : xtimeN n < 256 := Nat.mod_lt _ (by decide)

theorem xtime_val (a : Byte) : (xtime a).val = xtimeN a.val := by
  show xtimeN a.val % 256 = _
  exact Nat.mod_eq_of_lt (xtimeN_lt _)

theorem xtime_xor (a b : Byte) : xtime (a ^^^ b) = xtime a ^^^ xtime b := by
  have h := xtimeLinearAt_spec
    (allBelow_spec _ 256 (allBelow_spec _ 256 xtimeN_check a.val a.isLt) b.val b.isLt)
  apply Fin.ext
  rw [xor_val, xtime_val, xtime_val, xtime_val, xor_val]
  exact h

theorem invMixColumn_mixColumn (a b c d : Byte) :
    invMixColumn (mixColumn [a, b, c, d]) = [a, b, c, d] := by
  simp only [mixColumn, invMixColumn, mul2, mul3, mul9, mul11, mul13, mul14, xtime_xor,
    bxor_assoc]
  simp only [bxor_comm, bxor_left_comm, bxor_cancel_left, bxor_self, bxor_zero, zero_bxor]

theorem length_xorBytes : ∀ a b : List Byte, (xorBytes a b).length = min a.length b.length
  | [], _ => by simp [xorBytes]
  | _ :: _, [] => by simp [xorBytes]
  | _ :: as, _ :: bs => by simp [xorBytes, length_xorBytes as bs, Nat.succ_min_succ]

theorem xorBytes_cancel : ∀ s k : List Byte, s.length ≤ k.length →
    xorBytes (xorBytes s k) k = s
  | [], _, _ => by simp [xorBytes]
  | _ :: _, [], h => by simp at h
  | a :: as, b :: bs, h => by
    have h1 : as.length ≤ bs.length := by simpa using h
    simp [xorBytes, bxor_cancel_right, xorBytes_cancel as bs h1]

theorem xorBytes_comm : ∀ a b : List Byte, xorBytes a b = xorBytes b a
  | [], [] => rfl
  | [], _ :: _ => by simp [xorBytes]
  | _ :: _, [] => by simp [xorBytes]
  | a :: as, b :: bs => by simp [xorBytes, bxor_comm a b, xorBytes_comm as bs]

theorem exists_cons_of_length {α : Type} {s : List α} {n : Nat} (h : s.length = n + 1) :
    ∃ a t, s = a :: t ∧ t.length = n := by
  cases s with
  | nil => simp at h
  | cons a t => exact ⟨a, t, rfl, by simpa using h⟩

theorem eq_of_length_four {α : Type} {s : List α} (h : s.length = 4) :
    ∃ a b c d, s = [a, b, c, d] := by
  obtain ⟨a, s, rfl, h1⟩ := exists_cons_of_length h
  obtain ⟨b, s, rfl, h2⟩ := exists_cons_of_length h1
  obtain ⟨c, s, rfl, h3⟩ := exists_cons_of_length h2
  obtain ⟨d, s, rfl, h4⟩ := exists_cons_of_length h3
  exact ⟨a, b, c, d, by rw [List.length_eq_zero.mp h4]⟩

theorem eq_of_length_sixteen {α : Type} {s : List α} (h : s.length = 16) :
    ∃ a0 a1 a2 a3 b0 b1 b2 b3 c0 c1 c2 c3 d0 d1 d2 d3,
      s = [a0, a1, a2, a3, b0, b1, b2, b3, c0, c1, c2, c3, d0, d1, d2, d3] := by
  obtain ⟨a0, s, rfl, h1⟩ := exists_cons_of_length h
  obtain ⟨a1, s, rfl, h2⟩ := exists_cons_of_length h1
  obtain ⟨a2, s, rfl, h3⟩ := exists_cons_of_length h2
  obtain ⟨a3, s, rfl, h4⟩ := exists_cons_of_length h3
  obtain ⟨b0, s, rfl, h5⟩ := exists_cons_of_length h4
  obtain ⟨b1, s, rfl, h6⟩ := exists_cons_of_length h5
  obtain ⟨b2, s, rfl, h7⟩ := exists_cons_of_length h6
  obtain ⟨b3, s, rfl, h8⟩ := exists_cons_of_length h7
  obtain ⟨c0, s, rfl, h9⟩ := exists_cons_of_length h8
  obtain ⟨c1, s, rfl, h10⟩ := exists_cons_of_length h9
  obtain ⟨c2, s, rfl, h11⟩ := exists_cons_of_length h10
  obtain ⟨c3, s, rfl, h12⟩ := exists_cons_of_length h11
  obtain ⟨d0, s, rfl, h13⟩ := exists_cons_of_length h12
  obtain ⟨d1, s, rfl, h14⟩ := exists_cons_of_length h13
  obtain ⟨d2, s, rfl, h15⟩ := exists_cons_of_length h14
  obtain ⟨d3, s, rfl, h16⟩ := exists_cons_of_length h15
  exact ⟨a0, a1, a2, a3, b0, b1, b2, b3, c0, c1, c2, c3, d0, d1, d2, d3,
    by rw [List.length_eq_zero.mp h16]⟩

theorem length_subBytes (s : List Byte) : (subBytes s).length = s.length := by
  simp [subBytes]

theorem length_invSubBytes (s : List Byte) : (invSubBytes s).length = s.length := by
  simp [invSubBytes]

theorem invSubBytes_subBytes (s : List Byte) : invSubBytes (subBytes s) = s := by
  induction s with
  | nil => rfl
  | cons a s ih =>
    simp only [subBytes, invSubBytes, List.map_cons, invSbox_sbox] at ih ⊢
    rw [ih]

theorem length_shiftRows (s : List Byte) (h : s.length = 16) : (shiftRows s).length = 16 := by
  obtain ⟨a0, a1, a2, a3, b0, b1, b2, b3, c0, c1, c2, c3, d0, d1, d2, d3, rfl⟩ :=
    eq_of_length_sixteen h
  rfl

theorem length_invShiftRows (s : List Byte) (h : s.length = 16) :
    (invShiftRows s).length = 16 := by
  obtain ⟨a0, a1, a2, a3, b0, b1, b2, b3, c0, c1, c2, c3, d0, d1, d2, d3, rfl⟩ :=
    eq_of_length_sixteen h
  rfl

theorem invShiftRows_shiftRows (s : List Byte) (h : s.length = 16) :
    invShiftRows (shiftRows s) = s := by
  obtain ⟨a0, a1, a2, a3, b0, b1, b2, b3, c0, c1, c2, c3, d0, d1, d2, d3, rfl⟩ :=
    eq_of_length_sixteen h
  rfl

theorem length_mixColumns (s : List Byte) (h : s.length = 16) : (mixColumns s).length = 16 := by
  obtain ⟨a0, a1, a2, a3, b0, b1, b2, b3, c0, c1, c2, c3, d0, d1, d2, d3, rfl⟩ :=
    eq_of_length_sixteen h
  rfl

theorem length_invMixColumns (s : List Byte) (h : s.length = 16) :
    (invMixColumns s).length = 16 := by
  obtain ⟨a0, a1, a2, a3, b0, b1, b2, b3, c0, c1, c2, c3, d0, d1, d2, d3, rfl⟩ :=
    eq_of_length_sixteen h
  rfl

theorem invMixColumns_mixColumns (s : List Byte) (h : s.length = 16) :
    invMixColumns (mixColumns s) = s := by
  obtain ⟨a0, a1, a2, a3, b0, b1, b2, b3, c0, c1, c2, c3, d0, d1, d2, d3, rfl⟩ :=
    eq_of_length_sixteen h
  have e : mixColumns [a0, a1, a2, a3, b0, b1, b2, b3, c0, c1, c2, c3, d0, d1, d2, d3] =
      mixColumn [a0, a1, a2, a3] ++ mixColumn [b0, b1, b2, b3] ++
        mixColumn [c0, c1, c2, c3] ++ mixColumn [d0, d1, d2, d3] := rfl
  have ha := invMixColumn_mixColumn a0 a1 a2 a3
  have hb := invMixColumn_mixColumn b0 b1 b2 b3
  have hc := invMixColumn_mixColumn c0 c1 c2 c3
  have hd := invMixColumn_mixColumn d0 d1 d2 d3
  rw [e]
  simp only [mixColumn] at ha hb hc hd ⊢
  simp only [List.cons_append, List.nil_append, invMixColumns]
  rw [ha, hb, hc, hd]
  rfl

theorem length_roundKey (w : List Byte) (r : Nat) : (roundKey w r).length = 16 := by
  simp [roundKey]

theorem length_addRoundKey (s w : List Byte) (r : Nat) (h : s.length = 16) :
    (addRoundKey s (roundKey w r)).length = 16 := by
  simp [addRoundKey, length_xorBytes, length_roundKey, h]

theorem addRoundKey_cancel (s w : List Byte) (r : Nat) (h : s.length = 16) :
    addRoundKey (addRoundKey s (roundKey w r)) (roundKey w r) = s :=
  xorBytes_cancel s _ (by rw [h, length_roundKey])

theorem length_encRound (w s : List Byte) (r : Nat) (h : s.length = 16) :
    (encRound w s r).length = 16 :=
  length_addRoundKey _ w r
    (length_mixColumns _ (length_shiftRows _ (by rw [length_subBytes, h])))

theorem length_encRounds (w : List Byte) : ∀ (rs : List Nat) (s : List Byte),
    s.length = 16 → (rs.foldl (encRound w) s).length = 16
  | [], _, h => h
  | r :: rs, s, h => length_encRounds w rs _ (length_encRound w s r h)

/-- One inverse round undoes one round, seen through `ShiftRows ∘ SubBytes`. -/
theorem decRound_encRound (w s : List Byte) (r : Nat) (h : s.length = 16) :
    decRound w (shiftRows (subBytes (encRound w s r))) r = shiftRows (subBytes s) := by
  have h1 : (shiftRows (subBytes s)).length = 16 :=
    length_shiftRows _ (by rw [length_subBytes, h])
  have h2 : (mixColumns (shiftRows (subBytes s))).length = 16 := length_mixColumns _ h1
  have h3 : (encRound w s r).length = 16 := length_encRound w s r h
  unfold decRound
  rw [invShiftRows_shiftRows _ (by rw [length_subBytes, h3]), invSubBytes_subBytes]
  unfold encRound
  rw [addRoundKey_cancel _ w r h2, invMixColumns_mixColumns _ h1]

theorem decRounds_encRounds (w : List Byte) : ∀ (rs : List Nat) (s : List Byte),
    s.length = 16 →
    rs.reverse.foldl (decRound w) (shiftRows (subBytes (rs.foldl (encRound w) s)))
      = shiftRows (subBytes s)
  | [], _, _ => rfl
  | r :: rs, s, h => by
    simp only [List.reverse_cons, List.foldl_append, List.foldl_cons, List.foldl_nil]
    rw [decRounds_encRounds w rs _ (length_encRound w s r h)]
    exact decRound_encRound w s r h

theorem length_aesEncryptBlock (key block : List Byte) (h : block.length = 16) :
    (aesEncryptBlock key block).length = 16 := by
  unfold aesEncryptBlock
  exact length_addRoundKey _ _ 14 (length_shiftRows _ (by
    rw [length_subBytes]
    exact length_encRounds _ _ _ (length_addRoundKey _ _ 0 h)))

/-- AES decryption inverts AES encryption under the same key, on every 16-byte block. -/
theorem aesDecryptBlock_aesEncryptBlock (key block : List Byte) (h : block.length = 16) :
    aesDecryptBlock key (aesEncryptBlock key block) = block := by
  have h0 : (addRoundKey block (roundKey (keyExpansion key) 0)).length = 16 :=
    length_addRoundKey _ _ 0 h
  have h1 := length_encRounds (keyExpansion key) (List.range' 1 13) _ h0
  have h2 : (shiftRows (subBytes ((List.range' 1 13).foldl (encRound (keyExpansion key))
      (addRoundKey block (roundKey (keyExpansion key) 0))))).length = 16 :=
    length_shiftRows _ (by rw [length_subBytes, h1])
  unfold aesDecryptBlock aesEncryptBlock
  simp only []
  rw [addRoundKey_cancel _ _ 14 h2, decRounds_encRounds _ _ _ h0,
    invShiftRows_shiftRows _ (by rw [length_subBytes, h0]), invSubBytes_subBytes,
    addRoundKey_cancel _ _ 0 h]

/-! ## Test vectors -/

set_option maxRecDepth 100000 in
/-- The example vector of FIPS-197, appendix C.3 (AES-256). -/
theorem aes_fips197_vector :
    aesEncryptBlock ((List.range 32).map byte) ((List.range 16).map fun i => byte (17 * i))
      = [142, 162, 183, 202, 81, 103, 69, 191, 234, 252, 73, 144, 75, 73, 96, 137] := by
  decide!

set_option maxRecDepth 100000 in
/-- The blob of `"s3cr3t-api-key"` under the all-zero IV: its ciphertext part is
what `openssl enc -aes-256-cbc` gives for the first 32 bytes of the key string. -/
theorem encryptKey_vector :
    (encryptKey (libOk (some ivZero)) (str "s3cr3t-api-key")).toOption
      = some [0, 0, 0, 0, 0, 0, 0, 0, 0, 0, 0, 0, 0, 0, 0, 0,
          249, 175, 93, 245, 50, 150, 67, 128, 145, 182, 149, 123, 132, 119, 104, 106] := by
  decide!

/-! ## CBC mode over AES -/

theorem length_cbcEncrypt (key : List Byte) : ∀ (n : Nat) (iv inp : List Byte),
    iv.length = 16 → 16 * n ≤ inp.length →
    (cbcEncrypt key n iv inp).1.length = 16 * n ∧ (cbcEncrypt key n iv inp).2.length = 16
  | 0, iv, inp, hiv, _ => by simp [cbcEncrypt, hiv]
  | n + 1, iv, inp, hiv, h => by
    have hx : (xorBytes (inp.take 16) iv).length = 16 := by
      rw [length_xorBytes, List.length_take, hiv]; omega
    have hc := length_aesEncryptBlock key _ hx
    have ih := length_cbcEncrypt key n (aesEncryptBlock key (xorBytes (inp.take 16) iv))
      (inp.drop 16) hc (by rw [List.length_drop]; omega)
    simp only [cbcEncrypt, List.length_append, hc, ih.1, ih.2]
    constructor
    · omega
    · trivial

theorem cbcDecrypt_cbcEncrypt (key : List Byte) : ∀ (n : Nat) (iv inp rest : List Byte),
    iv.length = 16 → 16 * n ≤ inp.length →
    cbcDecrypt key n iv ((cbcEncrypt key n iv inp).1 ++ rest)
      = (inp.take (16 * n), (cbcEncrypt key n iv inp).2)
  | 0, iv, inp, rest, _, _ => by simp [cbcEncrypt, cbcDecrypt]
  | n + 1, iv, inp, rest, hiv, h => by
    have ht : (inp.take 16).length = 16 := by rw [List.length_take]; omega
    have hx : (xorBytes (inp.take 16) iv).length = 16 := by
      rw [length_xorBytes, ht, hiv]; rfl
    have hc := length_aesEncryptBlock key _ hx
    have ih := cbcDecrypt_cbcEncrypt key n (aesEncryptBlock key (xorBytes (inp.take 16) iv))
      (inp.drop 16) rest hc (by rw [List.length_drop]; omega)
    simp only [cbcEncrypt, cbcDecrypt, List.append_assoc]
    rw [List.take_left' hc, List.drop_left' hc, ih,
      aesDecryptBlock_aesEncryptBlock key _ hx, xorBytes_cancel _ _ (by rw [ht, hiv])]
    have e : 16 * (n + 1) = 16 + 16 * n := by ring
    rw [e, List.take_add]

/-- The first `n` blocks of CBC encryption read the first `16 * n` bytes only. -/
theorem cbcEncrypt_append (key : List Byte) : ∀ (n : Nat) (iv inp more : List Byte),
    16 * n ≤ inp.length → cbcEncrypt key n iv (inp ++ more) = cbcEncrypt key n iv inp
  | 0, _, _, _, _ => rfl
  | n + 1, iv, inp, more, h => by
    have h16 : 16 ≤ inp.length := by omega
    simp only [cbcEncrypt]
    rw [List.take_append_of_le_length h16, List.drop_append_of_le_length h16,
      cbcEncrypt_append key n _ (inp.drop 16) more (by rw [List.length_drop]; omega)]

/-- Encrypting one block more. -/
theorem cbcEncrypt_succ (key : List Byte) : ∀ (n : Nat) (iv inp : List Byte),
    (cbcEncrypt key (n + 1) iv inp).1 = (cbcEncrypt key n iv inp).1 ++
      aesEncryptBlock key (xorBytes ((inp.drop (16 * n)).take 16) (cbcEncrypt key n iv inp).2)
  | 0, iv, inp => by simp [cbcEncrypt]
  | n + 1, iv, inp => by
    have ih := cbcEncrypt_succ key n (aesEncryptBlock key (xorBytes (inp.take 16) iv))
      (inp.drop 16)
    have e : 16 * (n + 1) = 16 + 16 * n := by ring
    rw [cbcEncrypt, ih]
    simp only [cbcEncrypt, List.append_assoc, List.drop_drop, e]

/-! ## Conversions to `int` -/

theorem toInt_of_lt {n : Nat} (h : n < 2 ^ 31) : toInt n = (n : Int) := by
  have h1 : n % 2 ^ 32 = n := Nat.mod_eq_of_lt (by omega)
  unfold toInt
  rw [h1, if_pos h]

theorem toInt_nonneg_iff (n : Nat) : 0 ≤ toInt n ↔ n % 2 ^ 32 < 2 ^ 31 := by
  have h2 : n % 2 ^ 32 < 2 ^ 32 := Nat.mod_lt _ (by decide)
  unfold toInt
  split <;> omega

theorem toInt_toNat {n : Nat} (h : 0 ≤ toInt n) : (toInt n).toNat = n % 2 ^ 32 := by
  have h1 := (toInt_nonneg_iff n).mp h
  unfold toInt
  rw [if_pos h1]
  exact Int.toNat_ofNat _

/-! ## PKCS#7 padding -/

theorem length_pkcs7 (b : List Byte) (h : b.length < 16) : (pkcs7 b).length = 16 := by
  simp only [pkcs7, List.length_append, List.length_replicate]; omega

theorem byte_val_of_le {n : Nat} (h : n ≤ 16) : (byte n).val = n := by
  show n % 256 = n
  exact Nat.mod_eq_of_lt (by omega)

theorem pkcs7_last (b : List Byte) (h : b.length < 16) :
    (pkcs7 b).getD 15 0 = byte (16 - b.length) := by
  unfold pkcs7
  rw [List.getD_eq_getElem?_getD, List.getElem?_append_right (by omega),
    List.getElem?_replicate, if_pos (by omega)]
  rfl

theorem paddingOk_pkcs7 (b : List Byte) (h : b.length < 16) : paddingOk (pkcs7 b) = true := by
  have hv : (byte (16 - b.length)).val = 16 - b.length := byte_val_of_le (by omega)
  unfold paddingOk
  simp only [pkcs7_last b h, hv]
  have e : 16 - (16 - b.length) = b.length := by omega
  rw [e]
  simp only [pkcs7, List.drop_left, List.all_replicate, hv]
  simp
  omega

theorem pkcs7_take (b : List Byte) (h : b.length < 16) :
    (pkcs7 b).take (16 - ((pkcs7 b).getD 15 0).val) = b := by
  have hv : (byte (16 - b.length)).val = 16 - b.length := byte_val_of_le (by omega)
  have e : 16 - (16 - b.length) = b.length := by omega
  rw [pkcs7_last b h, hv, e]
  simp [pkcs7]

/-! ## The ciphertext body -/

theorem length_sealBody (iv q : List Byte) (hiv : iv.length = 16) :
    (sealBody iv q).length = 16 * (q.length / 16 + 1) := by
  have hq : 16 * (q.length / 16) ≤ q.length := Nat.mul_div_le _ _
  have hl := length_cbcEncrypt aesKey (q.length / 16) iv q hiv hq
  have hb : (q.drop (16 * (q.length / 16))).length < 16 := by
    rw [List.length_drop]; omega
  have hx : (xorBytes (pkcs7 (q.drop (16 * (q.length / 16))))
      (cbcEncrypt aesKey (q.length / 16) iv q).2).length = 16 := by
    rw [length_xorBytes, length_pkcs7 _ hb, hl.2]; rfl
  simp only [sealBody, List.length_append, hl.1, length_aesEncryptBlock _ _ hx]
  ring

/-- The ciphertext body is the CBC encryption of the padded plaintext. -/
theorem sealBody_eq (iv q : List Byte) :
    sealBody iv q = (cbcEncrypt aesKey (q.length / 16 + 1) iv
      (q ++ List.replicate (16 - q.length % 16) (byte (16 - q.length % 16)))).1 := by
  have hq : 16 * (q.length / 16) ≤ q.length := Nat.mul_div_le _ _
  have hm : q.length - 16 * (q.length / 16) = q.length % 16 := by omega
  rw [cbcEncrypt_succ, cbcEncrypt_append _ _ _ _ _ hq, List.drop_append_of_le_length hq]
  have hp : (q.drop (16 * (q.length / 16)) ++
      List.replicate (16 - q.length % 16) (byte (16 - q.length % 16))).length = 16 := by
    simp only [List.length_append, List.length_drop, List.length_replicate]; omega
  rw [List.take_of_length_le (by rw [hp])]
  simp only [sealBody, pkcs7, List.length_drop, hm]

theorem cbcDecrypt_sealBody (iv q : List Byte) (hiv : iv.length = 16) :
    (cbcDecrypt aesKey (q.length / 16 + 1) iv (sealBody iv q)).1
      = q ++ List.replicate (16 - q.length % 16) (byte (16 - q.length % 16)) := by
  have hlen : (q ++ List.replicate (16 - q.length % 16) (byte (16 - q.length % 16))).length
      = 16 * (q.length / 16 + 1) := by
    simp only [List.length_append, List.length_replicate]; omega
  have h := cbcDecrypt_cbcEncrypt aesKey (q.length / 16 + 1) iv
    (q ++ List.replicate (16 - q.length % 16) (byte (16 - q.length % 16))) [] hiv
    (by rw [hlen])
  rw [List.append_nil, ← sealBody_eq] at h
  rw [h]
  exact List.take_of_length_le (by rw [hlen])

/-! ## `encryptKey` and `decryptKey` -/

theorem padded_drop (q : List Byte) :
    (q ++ List.replicate (16 - q.length % 16) (byte (16 - q.length % 16))).drop
      (16 * (q.length / 16)) = pkcs7 (q.drop (16 * (q.length / 16))) := by
  have hq : 16 * (q.length / 16) ≤ q.length := Nat.mul_div_le _ _
  have hm : q.length - 16 * (q.length / 16) = q.length % 16 := by omega
  rw [List.drop_append_of_le_length hq]
  simp only [pkcs7, List.length_drop, hm]

theorem padded_take (q : List Byte) :
    (q ++ List.replicate (16 - q.length % 16) (byte (16 - q.length % 16))).take
      (16 * (q.length / 16)) = q.take (16 * (q.length / 16)) :=
  List.take_append_of_le_length (Nat.mul_div_le _ _)

/-- What `encryptKey` returns when the library calls succeed and both
conversions to `int` are non-negative: the IV, then the ciphertext of the
bytes `EVP_EncryptUpdate` is told to read. -/
theorem encryptKey_ok (iv : IV) (key : List Byte) (h1 : 0 ≤ outbufLen key)
    (h2 : 0 ≤ toInt key.length) :
    encryptKey (libOk (some iv)) key
      = .ok (iv.val ++ sealBody iv.val (key.take (toInt key.length).toNat)) := by
  have hiv : iv.val.take 16 = iv.val := List.take_of_length_le (by rw [iv.property])
  have hk : (EVP_CipherInit_ex KEY_ENCRYPTION_KEY iv.val) =
      { key := aesKey, iv := iv.val, buf := [], final := [], final_used := false } := by
    simp only [EVP_CipherInit_ex, hiv, aesKey]
  unfold encryptKey
  simp only [libOk, Bool.not_true, Bool.false_eq_true, if_false, if_neg (not_lt.mpr h1), hk]
  rcases lt_or_eq_of_le h2 with h3 | h3
  · have h4 : ¬ toInt key.length ≤ 0 := by omega
    simp only [EVP_EncryptUpdate, if_neg h4, List.nil_append, EVP_EncryptFinal_ex, sealBody,
      pkcs7]
  · have h4 : toInt key.length = 0 := h3.symm
    simp only [EVP_EncryptUpdate, h4, le_refl, if_true, EVP_EncryptFinal_ex, sealBody, pkcs7,
      Int.toNat_zero, List.take_zero, List.length_nil, Nat.zero_div, cbcEncrypt,
      List.nil_append, Nat.mul_zero, List.drop_nil]

/-- `decryptKey` opens what `encryptKey` builds. -/
theorem decryptKey_seal (env : CryptoEnv) (hc : env.ctx_new = true) (hi : env.init = true)
    (iv q : List Byte) (hiv : iv.length = 16) (hq : 16 * (q.length / 16 + 1) < 2 ^ 31) :
    decryptKey env (iv ++ sealBody iv q) = .ok q := by
  have hb := length_sealBody iv q hiv
  have hlen : (iv ++ sealBody iv q).length = 16 + 16 * (q.length / 16 + 1) := by
    rw [List.length_append, hiv, hb]
  have hti : toInt (16 * (q.length / 16 + 1)) = ((16 * (q.length / 16 + 1) : Nat) : Int) :=
    toInt_of_lt hq
  have hpos : ¬ ((16 * (q.length / 16 + 1) : Nat) : Int) ≤ 0 := by omega
  have hnn : ¬ ((16 * (q.length / 16 + 1) : Nat) : Int) < 0 := by omega
  have htk : (iv ++ sealBody iv q).take 16 = iv := List.take_left' hiv
  have hdr : (iv ++ sealBody iv q).drop 16 = sealBody iv q := List.drop_left' hiv
  have hfull : (sealBody iv q).take (16 * (q.length / 16 + 1)) = sealBody iv q :=
    List.take_of_length_le (by rw [hb])
  have hrest : (sealBody iv q).drop (16 * (q.length / 16 + 1)) = [] :=
    List.drop_of_length_le (by rw [hb])
  have hdiv : 16 * (q.length / 16 + 1) / 16 = q.length / 16 + 1 := by omega
  have hsub : 16 * (q.length / 16 + 1) - 16 = 16 * (q.length / 16) := by omega
  have hlast : (q.drop (16 * (q.length / 16))).length < 16 := by
    rw [List.length_drop]; omega
  have hk : (EVP_CipherInit_ex KEY_ENCRYPTION_KEY iv) =
      { key := aesKey, iv := iv, buf := [], final := [], final_used := false } := by
    simp only [EVP_CipherInit_ex, aesKey, List.take_of_length_le (le_of_eq hiv)]
  unfold decryptKey
  rw [if_neg (by rw [hlen]; omega)]
  simp only [hc, hi, Bool.not_true, Bool.false_eq_true, if_false, htk, hdr, hlen,
    Nat.add_sub_cancel_left, hti, if_neg hnn, hk]
  simp only [EVP_DecryptUpdate, if_neg hpos, Int.toNat_ofNat, List.nil_append, hfull, hb, hdiv,
    hrest, List.length_nil, if_true, hsub, cbcDecrypt_sealBody iv q hiv, padded_drop,
    padded_take, Bool.false_eq_true, if_false]
  simp only [EVP_DecryptFinal_ex, List.length_nil, bne_self_eq_false, Bool.not_true,
    Bool.or_self, Bool.false_eq_true, if_false, paddingOk_pkcs7 _ hlast, if_true,
    pkcs7_take _ hlast, List.take_append_drop]

theorem encryptKey_env {env : CryptoEnv} {key blob : List Byte}
    (h : encryptKey env key = .ok blob) : ∃ iv, env = libOk (some iv) := by
  obtain ⟨c, r, i⟩ := env
  unfold encryptKey at h
  cases c
  · simp at h
  · cases r with
    | none => simp at h
    | some iv =>
      cases i
      · simp at h
      · exact ⟨iv, rfl⟩

theorem outbufLen_eq (key : List Byte) : outbufLen key = toInt (key.length + 32) := rfl

theorem outbufLen_of_lt {key : List Byte} (h : key.length < 2 ^ 31 - 32) :
    outbufLen key = ((key.length + 32 : Nat) : Int) := by
  unfold outbufLen EVP_MAX_BLOCK_LENGTH
  exact toInt_of_lt (by omega)

/-- For a plaintext shorter than `2^31 - 32` bytes, `encryptKey` seals all of it. -/
theorem encryptKey_of_lt (iv : IV) (key : List Byte) (h : key.length < 2 ^ 31 - 32) :
    encryptKey (libOk (some iv)) key = .ok (iv.val ++ sealBody iv.val key) := by
  have h1 : toInt key.length = (key.length : Int) := toInt_of_lt (by omega)
  have h2 := encryptKey_ok iv key (by rw [outbufLen_of_lt h]; omega) (by rw [h1]; omega)
  rw [h2, h1, Int.toNat_ofNat, List.take_of_length_le (le_refl _)]

/-- The length of what a successful `encryptKey` returns, and the room it needs
in `outbuf`, for every plaintext. -/
theorem encryptKey_length {env : CryptoEnv} {key blob : List Byte}
    (h : encryptKey env key = .ok blob) :
    blob.length = 16 + 16 * (key.length % 2 ^ 32 / 16 + 1) ∧
      ((blob.length - 16 : Nat) : Int) ≤ outbufLen key := by
  obtain ⟨iv, rfl⟩ := encryptKey_env h
  have h1 : 0 ≤ outbufLen key := by
    by_contra hneg
    unfold encryptKey at h
    simp [libOk, not_le.mp hneg] at h
  have h2 : 0 ≤ toInt key.length := by
    by_contra hneg
    have h3 : toInt key.length ≤ 0 := by omega
    have h4 : ¬ toInt key.length = 0 := by omega
    unfold encryptKey at h
    simp [libOk, not_lt.mpr h1, EVP_EncryptUpdate, h3, h4] at h
  rw [encryptKey_ok iv key h1 h2] at h
  have hb : blob = iv.val ++ sealBody iv.val (key.take (toInt key.length).toNat) := by
    injection h with h; exact h.symm
  have hm : key.length % 2 ^ 32 ≤ key.length := Nat.mod_le _ _
  have hl : blob.length = 16 + 16 * (key.length % 2 ^ 32 / 16 + 1) := by
    rw [hb, List.length_append, iv.property, length_sealBody _ _ iv.property,
      List.length_take, toInt_toNat h2, Nat.min_eq_left hm]
  refine ⟨hl, ?_⟩
  have h5 := (toInt_nonneg_iff _).mp h1
  have h6 := (toInt_nonneg_iff _).mp h2
  have h7 : outbufLen key = (((key.length + 32) % 2 ^ 32 : Nat) : Int) := by
    unfold outbufLen toInt
    rw [if_pos h5]
    rfl
  have h8 : (key.length + 32) % 2 ^ 32 < 2 ^ 31 := h5
  rw [h7, hl]
  omega

/-! ## The claims about the cipher engine -/

/-- For a plaintext shorter than `2^31 - 32` bytes, sealing under any IV and
opening give the plaintext back. -/
theorem seal_then_open (iv : IV) (rand : Option IV) (p : List Byte)
    (hp : p.length < 2 ^ 31 - 32) :
    ∃ blob, encryptKey (libOk (some iv)) p = .ok blob ∧ blob.take 16 = iv.val ∧
      decryptKey (libOk rand) blob = .ok p := by
  refine ⟨iv.val ++ sealBody iv.val p, encryptKey_of_lt iv p hp, List.take_left' iv.property, ?_⟩
  exact decryptKey_seal (libOk rand) rfl rfl iv.val p iv.property (by omega)

/-- C1 (as amended): for every byte sequence `p` shorter than `2^31 - 32` bytes
(the empty one included) and every 16-byte IV the random source returns, when
the library calls succeed `encryptKey p` returns a blob that starts with the IV,
and `decryptKey` on that blob succeeds and returns exactly `p`. -/
theorem decryptKey_encryptKey (iv : IV) (rand : Option IV) (p : List Byte)
    (hp : p.length < 2 ^ 31 - 32) :
    ∃ blob, encryptKey (libOk (some iv)) p = .ok blob ∧ blob.take 16 = iv.val ∧
      decryptKey (libOk rand) blob = .ok p :=
  seal_then_open iv rand p hp

/-- C1, witness: the round trip of `"s3cr3t-api-key"` and of the empty string
under the all-zero IV. -/
theorem decryptKey_encryptKey_witness :
    (∃ blob, encryptKey (libOk (some ivZero)) (str "s3cr3t-api-key") = .ok blob ∧
      blob.take 16 = ivZero.val ∧ decryptKey (libOk none) blob = .ok (str "s3cr3t-api-key")) ∧
    (∃ blob, encryptKey (libOk (some ivZero)) [] = .ok blob ∧
      blob.take 16 = ivZero.val ∧ decryptKey (libOk none) blob = .ok []) :=
  ⟨decryptKey_encryptKey ivZero none (str "s3cr3t-api-key") (by decide),
   decryptKey_encryptKey ivZero none [] (by decide)⟩

/-- C1, counterexample: on a plaintext of `2^31 - 32` bytes the size of `outbuf`,
`key.length() + EVP_MAX_BLOCK_LENGTH`, is `2^31` and turns negative as an `int`;
`new unsigned char[len]` throws, `encryptKey` fails, and there is no blob to
decrypt. -/
theorem encryptKey_fails_at_two_gib :
    encryptKey (libOk (some ivZero)) (List.replicate (2 ^ 31 - 32) 0) = .error Exn.bad_alloc ∧
    ¬ ∃ blob, encryptKey (libOk (some ivZero)) (List.replicate (2 ^ 31 - 32) 0) = .ok blob ∧
      decryptKey (libOk none) blob = .ok (List.replicate (2 ^ 31 - 32) 0) := by
  have h : encryptKey (libOk (some ivZero)) (List.replicate (2 ^ 31 - 32) 0)
      = .error Exn.bad_alloc := by
    have hneg : outbufLen (List.replicate (2 ^ 31 - 32) (0 : Byte)) < 0 := by
      rw [outbufLen_eq, List.length_replicate]
      decide
    unfold encryptKey
    simp only [libOk, Bool.not_true, Bool.false_eq_true, if_false, if_pos hneg]
  refine ⟨h, ?_⟩
  rintro ⟨blob, hb, -⟩
  rw [h] at hb
  cases hb

/-- C9 (as amended): for every plaintext `p` shorter than `2^31 - 32` bytes and
every two distinct 16-byte IVs the random source returns, the two results of
`encryptKey p` begin with their IVs and so differ, and `decryptKey` returns `p`
on both. -/
theorem encryptKey_two_ivs (iv1 iv2 : IV) (rand : Option IV) (p : List Byte)
    (hiv : iv1 ≠ iv2) (hp : p.length < 2 ^ 31 - 32) :
    ∃ b1 b2, encryptKey (libOk (some iv1)) p = .ok b1 ∧
      encryptKey (libOk (some iv2)) p = .ok b2 ∧
      b1.take 16 = iv1.val ∧ b2.take 16 = iv2.val ∧ b1 ≠ b2 ∧
      decryptKey (libOk rand) b1 = .ok p ∧ decryptKey (libOk rand) b2 = .ok p := by
  obtain ⟨b1, e1, t1, d1⟩ := seal_then_open iv1 rand p hp
  obtain ⟨b2, e2, t2, d2⟩ := seal_then_open iv2 rand p hp
  refine ⟨b1, b2, e1, e2, t1, t2, ?_, d1, d2⟩
  intro hb
  apply hiv
  apply Subtype.ext
  rw [← t1, ← t2, hb]

/-- C9, witness: `"s3cr3t-api-key"` sealed under the all-zero and the all-one IV. -/
theorem encryptKey_two_ivs_witness :
    ∃ b1 b2, encryptKey (libOk (some ivZero)) (str "s3cr3t-api-key") = .ok b1 ∧
      encryptKey (libOk (some ivOne)) (str "s3cr3t-api-key") = .ok b2 ∧
      b1.take 16 = ivZero.val ∧ b2.take 16 = ivOne.val ∧ b1 ≠ b2 ∧
      decryptKey (libOk none) b1 = .ok (str "s3cr3t-api-key") ∧
      decryptKey (libOk none) b2 = .ok (str "s3cr3t-api-key") :=
  encryptKey_two_ivs ivZero ivOne none (str "s3cr3t-api-key") (by decide) (by decide)

/-- C9, counterexample: on a plaintext of `2^31` bytes the size of `outbuf` is
negative as an `int` and `encryptKey` throws under either IV: there are no two
results, and nothing that `decryptKey` could turn back into the plaintext. -/
theorem encryptKey_two_ivs_fails :
    encryptKey (libOk (some ivZero)) (List.replicate (2 ^ 31) 0) = .error Exn.bad_alloc ∧
    encryptKey (libOk (some ivOne)) (List.replicate (2 ^ 31) 0) = .error Exn.bad_alloc ∧
    ¬ ∃ b1 b2, encryptKey (libOk (some ivZero)) (List.replicate (2 ^ 31) 0) = .ok b1 ∧
      encryptKey (libOk (some ivOne)) (List.replicate (2 ^ 31) 0) = .ok b2 ∧ b1 ≠ b2 ∧
      decryptKey (libOk none) b1 = .ok (List.replicate (2 ^ 31) 0) ∧
      decryptKey (libOk none) b2 = .ok (List.replicate (2 ^ 31) 0) := by
  have hneg : outbufLen (List.replicate (2 ^ 31) (0 : Byte)) < 0 := by
    rw [outbufLen_eq, List.length_replicate]
    decide
  have h : ∀ iv : IV, encryptKey (libOk (some iv)) (List.replicate (2 ^ 31) 0)
      = .error Exn.bad_alloc := by
    intro iv
    unfold encryptKey
    simp only [libOk, Bool.not_true, Bool.false_eq_true, if_false, if_pos hneg]
  refine ⟨h ivZero, h ivOne, ?_⟩
  rintro ⟨b1, b2, h1, -⟩
  rw [h ivZero] at h1
  cases h1

/-- C10 (as amended): for every plaintext `p` of length `n < 2^31 - 32`, a
successful `encryptKey p` returns a blob of length exactly
`16 + 16 * (n / 16 + 1)`: at least 32 bytes, its ciphertext part a positive
multiple of 16 bytes, and the bytes written to `outbuf` (the ciphertext part)
fit in its allocated size, which is `n + EVP_MAX_BLOCK_LENGTH`. -/
theorem encryptKey_blob_length (env : CryptoEnv) (p blob : List Byte)
    (hp : p.length < 2 ^ 31 - 32) (h : encryptKey env p = .ok blob) :
    blob.length = 16 + 16 * (p.length / 16 + 1) ∧ 32 ≤ blob.length ∧
      0 < blob.length - 16 ∧ (blob.length - 16) % 16 = 0 ∧
      outbufLen p = ((p.length + EVP_MAX_BLOCK_LENGTH : Nat) : Int) ∧
      ((blob.length - 16 : Nat) : Int) ≤ outbufLen p := by
  obtain ⟨hl, hw⟩ := encryptKey_length h
  have hm : p.length % 2 ^ 32 = p.length := Nat.mod_eq_of_lt (by omega)
  rw [hm] at hl
  refine ⟨hl, by omega, by omega, by omega, outbufLen_of_lt hp, hw⟩

/-- C10, witness: the blob of `"s3cr3t-api-key"` (14 bytes) has 32 bytes. -/
theorem encryptKey_blob_length_witness :
    ∃ blob, encryptKey (libOk (some ivZero)) (str "s3cr3t-api-key") = .ok blob ∧
      blob.length = 32 := by
  have h := encryptKey_of_lt ivZero (str "s3cr3t-api-key") (by decide)
  exact ⟨_, h, (encryptKey_blob_length _ _ _ (by decide) h).1⟩

/-- C10, counterexample: on a plaintext of `n = 2^32` bytes the length turns
into `0` as an `int`; `encryptKey` succeeds and returns 32 bytes, not
`16 + 16 * (n / 16 + 1)`. -/
theorem encryptKey_blob_length_wraps :
    ∃ blob, encryptKey (libOk (some ivZero)) (List.replicate (2 ^ 32) 0) = .ok blob ∧
      blob.length = 32 ∧
      blob.length ≠ 16 + 16 * ((List.replicate (2 ^ 32) (0 : Byte)).length / 16 + 1) := by
  have hlen : (List.replicate (2 ^ 32) (0 : Byte)).length = 2 ^ 32 := List.length_replicate _ _
  have hi : toInt (List.replicate (2 ^ 32) (0 : Byte)).length = 0 := by
    rw [hlen]; decide
  have ho : (0 : Int) ≤ outbufLen (List.replicate (2 ^ 32) (0 : Byte)) := by
    rw [outbufLen_eq, hlen]
    decide
  have e : encryptKey (libOk (some ivZero)) (List.replicate (2 ^ 32) 0)
      = .ok (ivZero.val ++ sealBody ivZero.val []) := by
    rw [encryptKey_ok ivZero _ ho (by rw [hi]), hi, Int.toNat_zero, List.take_zero]
  have h32 : (ivZero.val ++ sealBody ivZero.val []).length = 32 := by
    rw [List.length_append, length_sealBody _ _ ivZero.property, ivZero.property]
    rfl
  refine ⟨_, e, h32, ?_⟩
  rw [h32, hlen]
  norm_num

/-! ## The claims about the secret store -/

theorem storeKey_of_error {env : CryptoEnv} {key : List Byte} {e : Exn} (os : Os)
    (fs : FileSys) (h : encryptKey env key = .error e) :
    storeKey env os key fs = (false, fs) := by
  unfold storeKey
  rw [h]

theorem storeKey_of_ok {env : CryptoEnv} {key blob : List Byte} (os : Os) (fs : FileSys)
    (h : encryptKey env key = .ok blob) :
    storeKey env os key fs =
      match ofstream_open os (mkdir os fs).2 with
      | none => (false, (mkdir os fs).2)
      | some fs2 => (true, (chmod os 0o600 (ofstream_write os blob fs2)).2) := by
  unfold storeKey
  rw [h]

theorem ofstream_open_some {os : Os} {fs fs2 : FileSys} (h : ofstream_open os fs = some fs2) :
    ∃ m, fs2 = .dir (some { content := [], mode := m }) := by
  cases fs with
  | noDir => simp [ofstream_open] at h
  | dir file =>
    cases file with
    | none =>
      simp only [ofstream_open, Option.some.injEq] at h
      exact ⟨_, h.symm⟩
    | some f =>
      simp only [ofstream_open] at h
      split at h
      · simp only [Option.some.injEq] at h
        exact ⟨_, h.symm⟩
      · simp at h

/-- When `storeKey` returns true, sealing succeeded, the file was opened, and
the file holds what the write stored, under the mode `chmod` left. -/
theorem storeKey_true {env : CryptoEnv} {os : Os} {key : List Byte} {fs : FileSys}
    (h : (storeKey env os key fs).1 = true) :
    ∃ blob m, encryptKey env key = .ok blob ∧
      ofstream_open os (mkdir os fs).2 = some (.dir (some { content := [], mode := m })) ∧
      (storeKey env os key fs).2 =
        (chmod os 0o600 (ofstream_write os blob (.dir (some { content := [], mode := m })))).2 := by
  cases he : encryptKey env key with
  | error e => rw [storeKey_of_error os fs he] at h; simp at h
  | ok blob =>
    rw [storeKey_of_ok os fs he] at h ⊢
    cases ho : ofstream_open os (mkdir os fs).2 with
    | none => rw [ho] at h; simp at h
    | some fs2 =>
      obtain ⟨m, rfl⟩ := ofstream_open_some ho
      exact ⟨blob, m, rfl, rfl, rfl⟩

/-- After a `storeKey` that returns true with a complete write and a successful
`chmod`, the file holds the whole sealed blob under mode 0600. -/
theorem storeKey_state {env : CryptoEnv} {os : Os} {key : List Byte} {fs : FileSys}
    (hw : os.write_limit = none) (hc : os.chmod_ok = true)
    (h : (storeKey env os key fs).1 = true) :
    ∃ blob, encryptKey env key = .ok blob ∧
      (storeKey env os key fs).2 = .dir (some { content := blob, mode := 0o600 }) := by
  obtain ⟨blob, m, he, -, hs⟩ := storeKey_true h
  refine ⟨blob, he, ?_⟩
  rw [hs]
  simp [ofstream_write, chmod, hw, hc]

/-- From a state without the base directory, when `mkdir` can make it and the
library calls succeed, `storeKey` of a short key returns true. -/
theorem storeKey_noDir (iv : IV) (os : Os) (key : List Byte) (hk : key.length < 2 ^ 31 - 32)
    (hm : os.mkdir_ok = true) :
    storeKey (libOk (some iv)) os key .noDir =
      (true, (chmod os 0o600 (ofstream_write os (iv.val ++ sealBody iv.val key)
        (.dir (some { content := [], mode := os.create_mode })))).2) := by
  rw [storeKey_of_ok os _ (encryptKey_of_lt iv key hk)]
  simp [mkdir, hm, ofstream_open]

/-- Store then read when nothing fails: from every prior file state (key file
absent, or holding any earlier content), if `storeKey k` returns true for a key
`k` shorter than `2^31 - 32` bytes, its write stored the whole blob and its
`chmod` succeeded, then `hasKey` returns true and `getKey` (its library calls
succeeding) returns exactly `k`. -/
theorem getKey_storeKey (env : CryptoEnv) (os : Os) (rand : Option IV) (k : List Byte)
    (fs : FileSys) (hk : k.length < 2 ^ 31 - 32) (hw : os.write_limit = none)
    (hc : os.chmod_ok = true) (hs : (storeKey env os k fs).1 = true) :
    (hasKey (storeKey env os k fs).2).1 = true ∧
      (getKey (libOk rand) (storeKey env os k fs).2).1 = k := by
  obtain ⟨blob, he, hst⟩ := storeKey_state hw hc hs
  obtain ⟨iv, rfl⟩ := encryptKey_env he
  have hb : blob = iv.val ++ sealBody iv.val k := by
    rw [encryptKey_of_lt iv k hk] at he
    injection he with he
    exact he.symm
  have hd : decryptKey (libOk rand) blob = .ok k := by
    rw [hb]
    exact decryptKey_seal (libOk rand) rfl rfl iv.val k iv.property (by omega)
  have hr : ownerReadable 0o600 = true := by decide
  rw [hst]
  simp only [hasKey, getKey, ifstream_open, hr, if_true, hd, Option.isSome_some, and_self]

/-- Store then read, an instance: on a fault-free system, from a state that holds
the blob of an earlier `storeKey "old-key"`, `storeKey "s3cr3t-api-key"` returns true, then
`hasKey` returns true and `getKey` returns `"s3cr3t-api-key"`. -/
theorem getKey_storeKey_overwrite :
    (storeKey (libOk (some ivOne)) osOk (str "s3cr3t-api-key")
      (storeKey (libOk (some ivZero)) osOk (str "old-key") .noDir).2).1 = true ∧
    (hasKey (storeKey (libOk (some ivOne)) osOk (str "s3cr3t-api-key")
      (storeKey (libOk (some ivZero)) osOk (str "old-key") .noDir).2).2).1 = true ∧
    (getKey (libOk none) (storeKey (libOk (some ivOne)) osOk (str "s3cr3t-api-key")
      (storeKey (libOk (some ivZero)) osOk (str "old-key") .noDir).2).2).1
        = str "s3cr3t-api-key" := by
  have h0 : (storeKey (libOk (some ivZero)) osOk (str "old-key") .noDir).2 =
      .dir (some { content := ivZero.val ++ sealBody ivZero.val (str "old-key"),
                   mode := 0o600 }) := by
    rw [storeKey_noDir ivZero osOk _ (by decide) rfl]
    rfl
  have h1 : (storeKey (libOk (some ivOne)) osOk (str "s3cr3t-api-key")
      (storeKey (libOk (some ivZero)) osOk (str "old-key") .noDir).2).1 = true := by
    rw [h0, storeKey_of_ok osOk _ (encryptKey_of_lt ivOne _ (by decide))]
    rfl
  exact ⟨h1, getKey_storeKey _ osOk none _ _ (by decide) rfl rfl h1⟩

/-- C2, the code at the failing input: with a full disk the write of
`storeKey "s3cr3t-api-key"` stores nothing, the stream is not looked at and
`storeKey` still returns true; the file is left empty, and `getKey` returns the
empty string, not the key. -/
theorem getKey_storeKey_disk_full :
    (storeKey (libOk (some ivZero)) osDiskFull (str "s3cr3t-api-key") .noDir).1 = true ∧
    (getKey (libOk none)
      (storeKey (libOk (some ivZero)) osDiskFull (str "s3cr3t-api-key") .noDir).2).1 = [] ∧
    (getKey (libOk none)
      (storeKey (libOk (some ivZero)) osDiskFull (str "s3cr3t-api-key") .noDir).2).1
        ≠ str "s3cr3t-api-key" := by
  have h0 : storeKey (libOk (some ivZero)) osDiskFull (str "s3cr3t-api-key") .noDir =
      (true, .dir (some { content := [], mode := 0o600 })) := by
    rw [storeKey_noDir ivZero osDiskFull _ (by decide) rfl]
    simp [ofstream_write, chmod, osDiskFull]
  rw [h0]
  have hg : (getKey (libOk none) (.dir (some { content := [], mode := 0o600 }))).1 = [] := by
    decide
  refine ⟨rfl, hg, ?_⟩
  rw [hg]
  decide

/-- C3 (as amended): from every state in which the key file is present,
`deleteKey` returns true exactly when `remove` succeeds; afterwards `hasKey`
returns false and `getKey` returns the empty string. When `remove` fails,
`deleteKey` returns false and the state stays as it was. -/
theorem deleteKey_present (env : CryptoEnv) (os : Os) (fs : FileSys)
    (h : ∃ f, fs = .dir (some f)) :
    ((deleteKey os fs).1 = true ↔ os.remove_ok = true) ∧
    (os.remove_ok = true →
      (deleteKey os fs).1 = true ∧ (hasKey (deleteKey os fs).2).1 = false ∧
        (getKey env (deleteKey os fs).2).1 = []) ∧
    (os.remove_ok = false → deleteKey os fs = (false, fs)) := by
  obtain ⟨f, rfl⟩ := h
  cases hr : os.remove_ok <;> simp [deleteKey, remove, hr, hasKey, getKey, ifstream_open]

/-- C3, witness: after `storeKey "s3cr3t-api-key"`, on a system where `remove`
succeeds, `deleteKey` returns true, `hasKey` returns false and `getKey` returns
the empty string. -/
theorem deleteKey_present_witness :
    (deleteKey osOk
      (storeKey (libOk (some ivZero)) osOk (str "s3cr3t-api-key") .noDir).2).1 = true ∧
    (hasKey (deleteKey osOk
      (storeKey (libOk (some ivZero)) osOk (str "s3cr3t-api-key") .noDir).2).2).1 = false ∧
    (getKey (libOk none) (deleteKey osOk
      (storeKey (libOk (some ivZero)) osOk (str "s3cr3t-api-key") .noDir).2).2).1 = [] :=
  (deleteKey_present (libOk none) osOk _ ⟨_, by
    rw [storeKey_noDir ivZero osOk _ (by decide) rfl]
    rfl⟩).2.1 rfl

/-- C3, counterexample: after `storeKey "s3cr3t-api-key"` the key file is
present; when `remove` fails, `deleteKey` returns false, `hasKey` still returns
true and `getKey` still returns the key. -/
theorem deleteKey_fails_on_present_file :
    (deleteKey osRemoveFails
      (storeKey (libOk (some ivZero)) osOk (str "s3cr3t-api-key") .noDir).2).1 = false ∧
    (hasKey (deleteKey osRemoveFails
      (storeKey (libOk (some ivZero)) osOk (str "s3cr3t-api-key") .noDir).2).2).1 = true ∧
    (getKey (libOk none) (deleteKey osRemoveFails
      (storeKey (libOk (some ivZero)) osOk (str "s3cr3t-api-key") .noDir).2).2).1
        = str "s3cr3t-api-key" := by
  have hd : ∀ f, deleteKey osRemoveFails (.dir (some f)) = (false, .dir (some f)) :=
    fun _ => rfl
  have ht : (storeKey (libOk (some ivZero)) osOk (str "s3cr3t-api-key") .noDir).1 = true := by
    rw [storeKey_noDir ivZero osOk _ (by decide) rfl]
  have h0 : (storeKey (libOk (some ivZero)) osOk (str "s3cr3t-api-key") .noDir).2 =
      .dir (some { content := ivZero.val ++ sealBody ivZero.val (str "s3cr3t-api-key"),
                   mode := 0o600 }) := by
    rw [storeKey_noDir ivZero osOk _ (by decide) rfl]
    rfl
  have hg := getKey_storeKey _ osOk none _ _ (by decide) rfl rfl ht
  rw [h0] at hg ⊢
  rw [hd]
  exact ⟨rfl, hg.1, hg.2⟩

/-- C4 (as amended): `deleteKey` returns true exactly when the key file is
present and `remove` succeeds, and the file is then absent; on an absent file
it returns false and changes nothing. So whenever the first of two consecutive
`deleteKey` calls removed the file or found it absent, the second returns
false and leaves the state Absent. -/
theorem deleteKey_twice (os1 os2 : Os) (fs : FileSys) :
    ((deleteKey os1 fs).1 = true ↔ (∃ f, fs = .dir (some f)) ∧ os1.remove_ok = true) ∧
    ((deleteKey os1 fs).1 = true → (hasKey (deleteKey os1 fs).2).1 = false) ∧
    ((¬ ∃ f, fs = .dir (some f)) → deleteKey os1 fs = (false, fs)) ∧
    (((deleteKey os1 fs).1 = true ∨ ¬ ∃ f, fs = .dir (some f)) →
      (deleteKey os2 (deleteKey os1 fs).2).1 = false ∧
        (deleteKey os2 (deleteKey os1 fs).2).2 = (deleteKey os1 fs).2 ∧
        (hasKey (deleteKey os2 (deleteKey os1 fs).2).2).1 = false) := by
  cases fs with
  | noDir => simp [deleteKey, remove, hasKey, ifstream_open]
  | dir file =>
    cases file with
    | none => simp [deleteKey, remove, hasKey, ifstream_open]
    | some f =>
      cases hr : os1.remove_ok <;> simp [deleteKey, remove, hr, hasKey, ifstream_open]

/-- C4, witness: on a system where `remove` succeeds, the first `deleteKey` on a
present file returns true, the second returns false, and the file is absent
after each. -/
theorem deleteKey_twice_witness :
    (deleteKey osOk (.dir (some { content := str "abcde", mode := 0o600 }))).1 = true ∧
    (deleteKey osOk
      (deleteKey osOk (.dir (some { content := str "abcde", mode := 0o600 }))).2).1 = false ∧
    (hasKey (deleteKey osOk
      (deleteKey osOk (.dir (some { content := str "abcde", mode := 0o600 }))).2).2).1
        = false :=
  have h1 : (deleteKey osOk (.dir (some { content := str "abcde", mode := 0o600 }))).1 = true :=
    ((deleteKey_twice osOk osOk _).1).mpr ⟨⟨_, rfl⟩, rfl⟩
  have h2 := (deleteKey_twice osOk osOk
    (.dir (some { content := str "abcde", mode := 0o600 }))).2.2.2 (Or.inl h1)
  ⟨h1, h2.1, h2.2.2⟩

/-- C4, counterexample: `deleteKey` on an absent file returns false, and so does
the second of two consecutive calls on a present file. -/
theorem deleteKey_absent_returns_false :
    (deleteKey osOk (.dir none)).1 = false ∧ (deleteKey osOk .noDir).1 = false ∧
    (deleteKey osOk (.dir (some { content := [], mode := 0o600 }))).1 = true ∧
    (deleteKey osOk
      (deleteKey osOk (.dir (some { content := [], mode := 0o600 }))).2).1 = false := by
  decide

/-- The only failures `storeKey` reports are those of sealing and of opening the
file: the write and `chmod` are not looked at. When it returns true the file
holds what the write stored, under the mode `chmod` left. -/
theorem storeKey_true_iff (env : CryptoEnv) (os : Os) (k : List Byte) (fs : FileSys) :
    ((storeKey env os k fs).1 = true ↔
      (∃ blob, encryptKey env k = .ok blob) ∧ (ofstream_open os (mkdir os fs).2).isSome) ∧
    (∀ blob, encryptKey env k = .ok blob → (storeKey env os k fs).1 = true →
      ∃ m, (storeKey env os k fs).2 = .dir (some
        { content := (match os.write_limit with
                      | none => blob
                      | some n => blob.take n),
          mode := if os.chmod_ok then 0o600 else m })) := by
  constructor
  · constructor
    · intro h
      obtain ⟨blob, m, he, ho, -⟩ := storeKey_true h
      exact ⟨⟨blob, he⟩, by rw [ho]; rfl⟩
    · rintro ⟨⟨blob, he⟩, ho⟩
      rw [storeKey_of_ok os fs he]
      cases hx : ofstream_open os (mkdir os fs).2 with
      | none => rw [hx] at ho; simp at ho
      | some fs2 => rfl
  · intro blob he h
    obtain ⟨blob2, m, he2, -, hs⟩ := storeKey_true h
    rw [he] at he2
    injection he2 with he2
    subst he2
    refine ⟨m, ?_⟩
    rw [hs]
    cases hc : os.chmod_ok <;> simp [ofstream_write, chmod, hc]

/-- The failures `storeKey` does report: it returns false, leaving the state as
it was, when sealing fails; it returns false when the base directory is missing and
`mkdir` fails, and when the file cannot be opened for writing. Whenever it
returns true and the write and `chmod` did not fail, the file holds the whole
sealed blob and has mode 0600. -/
theorem storeKey_reports (env : CryptoEnv) (os : Os) (k : List Byte) (fs : FileSys) :
    (∀ e, encryptKey env k = .error e → storeKey env os k fs = (false, fs)) ∧
    (fs = .noDir → os.mkdir_ok = false → (storeKey env os k fs).1 = false) ∧
    (ofstream_open os (mkdir os fs).2 = none → (storeKey env os k fs).1 = false) ∧
    ((storeKey env os k fs).1 = true → os.write_limit = none → os.chmod_ok = true →
      ∃ blob, encryptKey env k = .ok blob ∧
        (storeKey env os k fs).2 = .dir (some { content := blob, mode := 0o600 })) := by
  have hopen : ofstream_open os (mkdir os fs).2 = none → (storeKey env os k fs).1 = false := by
    intro ho
    cases he : encryptKey env k with
    | error e => rw [storeKey_of_error os fs he]
    | ok blob => rw [storeKey_of_ok os fs he, ho]
  refine ⟨fun e he => storeKey_of_error os fs he, ?_, hopen, ?_⟩
  · intro hfs hm
    apply hopen
    rw [hfs]
    simp [mkdir, hm, ofstream_open]
  · intro h hw hc
    exact storeKey_state hw hc h

/-- Reported failures, instances: `storeKey` fails when `RAND_bytes` fails, and when the base
directory is missing and cannot be made; on a fault-free system it returns
true and the file holds the whole blob under mode 0600. -/
theorem storeKey_reports_instances :
    storeKey { ctx_new := true, rand := none, init := true } osOk (str "s3cr3t-api-key") .noDir
      = (false, .noDir) ∧
    (storeKey (libOk (some ivZero))
      { mkdir_ok := false, create_mode := 0o644, write_limit := none, chmod_ok := true,
        remove_ok := true }
      (str "s3cr3t-api-key") .noDir).1 = false ∧
    (storeKey (libOk (some ivZero)) osOk (str "s3cr3t-api-key") .noDir).2 =
      .dir (some { content := ivZero.val ++ sealBody ivZero.val (str "s3cr3t-api-key"),
                   mode := 0o600 }) := by
  have he := encryptKey_of_lt ivZero (str "s3cr3t-api-key") (by decide)
  have ht : (storeKey (libOk (some ivZero)) osOk (str "s3cr3t-api-key") .noDir).1 = true := by
    rw [storeKey_noDir ivZero osOk _ (by decide) rfl]
  refine ⟨(storeKey_reports _ osOk _ .noDir).1 (.runtime_error "Failed to generate IV") rfl,
    (storeKey_reports _ _ _ .noDir).2.1 rfl rfl, ?_⟩
  obtain ⟨blob, hb, hs⟩ := (storeKey_reports _ osOk _ .noDir).2.2.2 ht rfl rfl
  rw [he] at hb
  injection hb with hb
  rw [hs, ← hb]

/-- C5, the code at the failing input: when the write stores the first 20 bytes
only and `chmod` fails, neither result is looked at and `storeKey` still
returns true; the file holds 20 bytes of the 32-byte blob under the mode it was
created with, not the whole blob under mode 0600. -/
theorem storeKey_true_despite_faults :
    ∃ blob, encryptKey (libOk (some ivZero)) (str "s3cr3t-api-key") = .ok blob ∧
      blob.length = 32 ∧
      storeKey (libOk (some ivZero)) osFaulty (str "s3cr3t-api-key") .noDir =
        (true, .dir (some { content := blob.take 20, mode := 0o644 })) ∧
      (blob.take 20).length = 20 := by
  have he := encryptKey_of_lt ivZero (str "s3cr3t-api-key") (by decide)
  have hl := (encryptKey_length he).1
  have hl32 : (ivZero.val ++ sealBody ivZero.val (str "s3cr3t-api-key")).length = 32 := by
    rw [hl]; decide
  refine ⟨_, he, hl32, ?_, ?_⟩
  · rw [storeKey_noDir ivZero osFaulty _ (by decide) rfl]
    simp [ofstream_write, chmod, osFaulty]
  · rw [List.length_take, hl32]
    decide

theorem EVP_DecryptFinal_ex_some {ctx : EVP_CIPHER_CTX} {r : List Byte × EVP_CIPHER_CTX}
    (h : EVP_DecryptFinal_ex ctx = some r) :
    ctx.buf.length = 0 ∧ ctx.final_used = true ∧ paddingOk ctx.final = true := by
  unfold EVP_DecryptFinal_ex at h
  split at h
  · simp at h
  · rename_i h1
    simp only [Bool.or_eq_true, bne_iff_ne, ne_eq, Bool.not_eq_true', not_or, not_not,
      Bool.not_eq_false] at h1
    split at h
    · rename_i h2
      exact ⟨h1.1, h1.2, h2⟩
    · simp at h

/-- After `EVP_DecryptUpdate` on a fresh context a block is held back only when
the input read was a positive whole number of blocks. -/
theorem EVP_DecryptUpdate_fresh {key iv inp out : List Byte} {inl : Int}
    {ctx1 : EVP_CIPHER_CTX}
    (h : EVP_DecryptUpdate
      { key := key, iv := iv, buf := [], final := [], final_used := false } inp inl
        = some (out, ctx1))
    (hf : ctx1.final_used = true) :
    0 < inl ∧ (inp.take inl.toNat).length % 16 = 0 := by
  unfold EVP_DecryptUpdate at h
  split at h
  · split at h
    · simp only [Option.some.injEq, Prod.mk.injEq] at h
      rw [← h.2] at hf
      simp at hf
    · simp at h
  · rename_i h1
    refine ⟨by omega, ?_⟩
    simp only [List.nil_append] at h
    split at h
    · rename_i h2
      rw [List.length_drop] at h2
      omega
    · simp only [Option.some.injEq, Prod.mk.injEq] at h
      rw [← h.2] at hf
      simp at hf

/-- When `decryptKey` succeeds, the library calls succeeded, the input is longer
than 16 bytes, its ciphertext part is a whole number of blocks, and the last
decrypted block passes the padding check. -/
theorem decryptKey_ok {env : CryptoEnv} {c p : List Byte} (h : decryptKey env c = .ok p) :
    env.ctx_new = true ∧ env.init = true ∧ 16 < c.length ∧ (c.length - 16) % 16 = 0 ∧
      paddingOk (heldBlock c) = true := by
  unfold decryptKey at h
  split at h
  · simp at h
  rename_i hlen
  cases hc : env.ctx_new
  · simp [hc] at h
  cases hi : env.init
  · simp [hc, hi] at h
  simp only [hc, hi, Bool.not_true, Bool.false_eq_true, if_false] at h
  split at h
  · simp at h
  rename_i hneg
  have hnn : 0 ≤ toInt (c.length - 16) := not_lt.mp hneg
  have hk : ∀ iv, EVP_CipherInit_ex KEY_ENCRYPTION_KEY iv =
      { key := aesKey, iv := iv.take 16, buf := [], final := [], final_used := false } :=
    fun _ => rfl
  cases hu : EVP_DecryptUpdate (EVP_CipherInit_ex KEY_ENCRYPTION_KEY (c.take 16)) (c.drop 16)
      (toInt (c.length - 16)) with
  | none => simp [hu] at h
  | some r =>
    obtain ⟨out1, ctx1⟩ := r
    simp only [hu] at h
    cases hfin : EVP_DecryptFinal_ex ctx1 with
    | none => simp [hfin] at h
    | some r2 =>
      obtain ⟨hb, hfu, hpad⟩ := EVP_DecryptFinal_ex_some hfin
      have hheld : heldBlock c = ctx1.final := by
        unfold heldBlock
        rw [hu]
      rw [hk] at hu
      obtain ⟨hpos, hmod⟩ := EVP_DecryptUpdate_fresh hu hfu
      rw [List.length_take, List.length_drop, toInt_toNat hnn] at hmod
      have hle : (c.length - 16) % 2 ^ 32 ≤ c.length - 16 := Nat.mod_le _ _
      rw [Nat.min_eq_left hle] at hmod
      have hpos2 : 0 < (toInt (c.length - 16)).toNat := by omega
      rw [toInt_toNat hnn] at hpos2
      refine ⟨rfl, rfl, by omega, by omega, ?_⟩
      rw [hheld]
      exact hpad

theorem getKey_of_error {env : CryptoEnv} {fs : FileSys} {c : List Byte} {e : Exn}
    (hc : ifstream_open fs = some c) (he : decryptKey env c = .error e) :
    (getKey env fs).1 = [] := by
  unfold getKey
  rw [hc]
  simp only [he]

theorem getKey_of_ok {env : CryptoEnv} {fs : FileSys} {c p : List Byte}
    (hc : ifstream_open fs = some c) (hp : decryptKey env c = .ok p) :
    (getKey env fs).1 = p := by
  unfold getKey
  rw [hc]
  simp only [hp]

/-- The inputs on which `decryptKey` fails whatever the key: shorter than 16
bytes, an empty ciphertext part, a ciphertext part that is not a whole number
of blocks, malformed padding. -/
theorem decryptKey_error_of_bad (env : CryptoEnv) (c : List Byte)
    (hbad : c.length < 16 ∨ c.length = 16 ∨ (c.length - 16) % 16 ≠ 0 ∨
      paddingOk (heldBlock c) = false) :
    ∃ e, decryptKey env c = .error e := by
  cases hd : decryptKey env c with
  | error e => exact ⟨e, rfl⟩
  | ok p =>
    obtain ⟨-, -, h1, h2, h3⟩ := decryptKey_ok hd
    rcases hbad with hb | hb | hb | hb
    · omega
    · omega
    · exact absurd h2 hb
    · rw [h3] at hb
      cases hb

/-- C6: `getKey` is total, it leaves the file state as it was, and it turns every
failure into the empty result: it returns the empty string when the file is
absent or cannot be opened, and whenever `decryptKey` fails on the file
content, which it does on content shorter than 16 bytes, on an empty
ciphertext part, on a ciphertext part that is not a multiple of 16 bytes, and
on malformed padding after decryption. Otherwise it returns the whole result
of `decryptKey`, never a part of it. -/
theorem getKey_total (env : CryptoEnv) (fs : FileSys) :
    (getKey env fs).2 = fs ∧
    (ifstream_open fs = none → (getKey env fs).1 = []) ∧
    (∀ c, ifstream_open fs = some c →
      (∀ e, decryptKey env c = .error e → (getKey env fs).1 = []) ∧
      (∀ p, decryptKey env c = .ok p → (getKey env fs).1 = p) ∧
      (c.length < 16 ∨ c.length = 16 ∨ (c.length - 16) % 16 ≠ 0 ∨
          paddingOk (heldBlock c) = false →
        (∃ e, decryptKey env c = .error e) ∧ (getKey env fs).1 = [])) := by
  refine ⟨?_, ?_, ?_⟩
  · unfold getKey
    split
    · rfl
    · split <;> rfl
  · intro h
    unfold getKey
    rw [h]
  · intro c hc
    refine ⟨fun e he => getKey_of_error hc he, fun p hp => getKey_of_ok hc hp, ?_⟩
    intro hbad
    obtain ⟨e, he⟩ := decryptKey_error_of_bad env c hbad
    exact ⟨⟨e, he⟩, getKey_of_error hc he⟩

set_option maxRecDepth 100000 in
/-- The block held back on 32 zero bytes fails the padding check. -/
theorem paddingOk_zero_blob : paddingOk (heldBlock (ivZero.val ++ ivZero.val)) = false := by
  decide!

/-- C6, witness: `getKey` returns the empty string when the directory or the
file is missing, when the file is not readable, and on readable files of 5
bytes, of 16 bytes (no ciphertext), of 19 bytes (a partial block) and of 32
zero bytes (malformed padding). -/
theorem getKey_total_witness :
    (getKey (libOk none) .noDir).1 = [] ∧
    (getKey (libOk none) (.dir none)).1 = [] ∧
    (getKey (libOk none) (.dir (some { content := str "abcde", mode := 0o200 }))).1 = [] ∧
    (getKey (libOk none) (.dir (some { content := str "abcde", mode := 0o600 }))).1 = [] ∧
    (getKey (libOk none) (.dir (some { content := ivZero.val, mode := 0o600 }))).1 = [] ∧
    (getKey (libOk none)
      (.dir (some { content := ivZero.val ++ str "abc", mode := 0o600 }))).1 = [] ∧
    (getKey (libOk none)
      (.dir (some { content := ivZero.val ++ ivZero.val, mode := 0o600 }))).1 = [] :=
  ⟨(getKey_total (libOk none) .noDir).2.1 rfl,
   (getKey_total (libOk none) (.dir none)).2.1 rfl,
   (getKey_total (libOk none) (.dir (some { content := str "abcde", mode := 0o200 }))).2.1 rfl,
   (((getKey_total (libOk none) (.dir (some { content := str "abcde", mode := 0o600 }))).2.2
      (str "abcde") rfl).2.2 (Or.inl (by decide))).2,
   (((getKey_total (libOk none) (.dir (some { content := ivZero.val, mode := 0o600 }))).2.2
      ivZero.val rfl).2.2 (Or.inr (Or.inl (by decide)))).2,
   (((getKey_total (libOk none)
      (.dir (some { content := ivZero.val ++ str "abc", mode := 0o600 }))).2.2
      (ivZero.val ++ str "abc") rfl).2.2 (Or.inr (Or.inr (Or.inl (by decide))))).2,
   (((getKey_total (libOk none)
      (.dir (some { content := ivZero.val ++ ivZero.val, mode := 0o600 }))).2.2
      (ivZero.val ++ ivZero.val) rfl).2.2 (Or.inr (Or.inr (Or.inr paddingOk_zero_blob)))).2⟩

/-- C7 (what the code does): the string behind `KEY_ENCRYPTION_KEY` is 34 bytes
long, `EVP_*Init_ex` reads its first 32 bytes as the AES-256 key, and the key in
use, `"your_hardcoded_encryption_key_he"`, is not the whole configured secret:
the last two bytes are cut off. -/
theorem key_is_truncated :
    KEY_ENCRYPTION_KEY.length = 34 ∧ aesKey.length = 32 ∧
    (EVP_CipherInit_ex KEY_ENCRYPTION_KEY ivZero.val).key = aesKey ∧
    aesKey = str "your_hardcoded_encryption_key_he" ∧ aesKey ≠ KEY_ENCRYPTION_KEY ∧
    KEY_ENCRYPTION_KEY = aesKey ++ str "re" := by
  decide

/-- C8: `hasKey` is an existence probe only. For every file state it returns
true exactly when the key file exists and can be opened for reading, whatever
the content; it leaves the file state as it was; and it returns true also for
a readable file on which `getKey` returns the empty string, such as one
shorter than 16 bytes. -/
theorem hasKey_probe (fs : FileSys) :
    ((hasKey fs).1 = true ↔ ∃ f, fs = .dir (some f) ∧ ownerReadable f.mode = true) ∧
    (hasKey fs).2 = fs ∧
    (∀ f c, fs = .dir (some f) →
      (hasKey (.dir (some { f with content := c }))).1 = (hasKey fs).1) ∧
    (∀ env f, fs = .dir (some f) → ownerReadable f.mode = true → f.content.length < 16 →
      (hasKey fs).1 = true ∧ (getKey env fs).1 = []) := by
  refine ⟨?_, rfl, ?_, ?_⟩
  · cases fs with
    | noDir => simp [hasKey, ifstream_open]
    | dir file =>
      cases file with
      | none => simp [hasKey, ifstream_open]
      | some f =>
        cases hr : ownerReadable f.mode <;> simp [hasKey, ifstream_open, hr]
  · rintro f c rfl
    cases hr : ownerReadable f.mode <;> simp [hasKey, ifstream_open, hr]
  · rintro env f rfl hr hlen
    have ho : ifstream_open (.dir (some f)) = some f.content := by
      simp [ifstream_open, hr]
    refine ⟨by simp [hasKey, ho], ?_⟩
    obtain ⟨e, he⟩ := decryptKey_error_of_bad env f.content (Or.inl hlen)
    exact getKey_of_error ho he

/-- C8, witness: `hasKey` is true on a readable file of 5 bytes, on which `getKey`
returns the empty string; it is false on a file without read permission and
when the file is missing. -/
theorem hasKey_probe_witness :
    ((hasKey (.dir (some { content := str "abcde", mode := 0o600 }))).1 = true ∧
      (getKey (libOk none) (.dir (some { content := str "abcde", mode := 0o600 }))).1 = []) ∧
    (hasKey (.dir (some { content := str "abcde", mode := 0o200 }))).1 = false ∧
    (hasKey (.dir none)).1 = false ∧ (hasKey .noDir).1 = false :=
  ⟨(hasKey_probe _).2.2.2 (libOk none) _ rfl (by decide) (by decide), by decide, by decide,
    by decide⟩

end AdMore
